import Mathlib

/-!
# Verification of the roach Hive engine against its specification

Shallow embedding of the roach repository's Hive rules engine
(`src/game_state.rs`, `src/hex.rs`, `src/piece.rs`, `src/engine.rs`,
`src/ai/mod.rs`, `hive/src/engine.rs`, `hive/src/parser.rs`,
`ai/src/mcts.rs`) and proofs about it.  Rust `HashMap`s are embedded as
association lists (operations preserve key uniqueness, and every property
proved here depends only on the key/value sets, never on iteration order);
Rust `HashSet`-based computations are embedded as list computations with
the same membership semantics.  Recursive Rust procedures whose
termination depends on the finiteness of the board are given explicit
fuel that provably exceeds their recursion depth on all inputs they are
called with.
-/

namespace Roach

/-- `Player` from `src/game_state.rs` (called `Color` in the `hive` crate). -/
inductive Player where
  | White
  | Black
deriving DecidableEq, Repr

/-- `Player::other` from `src/game_state.rs`. -/
def Player.other : Player → Player
  | .White => .Black
  | .Black => .White

/-- `Bug` from `hive/src/piece.rs` (the variant of the piece enum that is
consistent with `src/game_state.rs`, which uses all eight kinds). -/
inductive Bug where
  | Ant
  | Beetle
  | Grasshopper
  | Ladybug
  | Mosquito
  | Queen
  | Pillbug
  | Spider
deriving DecidableEq, Repr

/-- `Piece` from `hive/src/piece.rs`: `(id, bug, owner)`.  The Rust `id` is a
`u8` that only ever holds 1..3, embedded as `Nat`. -/
structure Piece where
  id : Nat
  bug : Bug
  owner : Player
deriving DecidableEq, Repr

/-- `Piece::new` from `hive/src/piece.rs`. -/
def Piece.new (bug : Bug) (owner : Player) : Piece := ⟨1, bug, owner⟩

/-- `Piece::new_set` from `hive/src/piece.rs`: pieces with ids `1..=n`. -/
def Piece.new_set (bug : Bug) (owner : Player) (n : Nat) : List Piece :=
  (List.range n).map (fun i => ⟨i + 1, bug, owner⟩)

/-- `Hex` from `src/hex.rs`: cube coordinate.  Rust uses `i64`, embedded as
`Int` (no arithmetic in the program can overflow an `i64` on reachable
boards, since coordinates move by ±1 per step). -/
structure Hex where
  x : Int
  y : Int
  z : Int
deriving DecidableEq, Repr

/-- `ORIGIN` from `src/hex.rs`. -/
def ORIGIN : Hex := ⟨0, 0, 0⟩

namespace Hex

/-- `Hex::add` from `src/hex.rs`. -/
def add (a b : Hex) : Hex := ⟨a.x + b.x, a.y + b.y, a.z + b.z⟩

/-- `Hex::sub` from `src/hex.rs`. -/
def sub (a b : Hex) : Hex := ⟨a.x - b.x, a.y - b.y, a.z - b.z⟩

/-- `Hex::ne` from `src/hex.rs`. -/
def hexNE (a : Hex) : Hex := a.add ⟨1, 0, -1⟩
/-- `Hex::nw` from `src/hex.rs`. -/
def hexNW (a : Hex) : Hex := a.add ⟨0, 1, -1⟩
/-- `Hex::se` from `src/hex.rs`. -/
def hexSE (a : Hex) : Hex := a.add ⟨0, -1, 1⟩
/-- `Hex::sw` from `src/hex.rs`. -/
def hexSW (a : Hex) : Hex := a.add ⟨-1, 0, 1⟩
/-- `Hex::e` from `src/hex.rs`. -/
def hexE (a : Hex) : Hex := a.add ⟨1, -1, 0⟩
/-- `Hex::w` from `src/hex.rs`. -/
def hexW (a : Hex) : Hex := a.add ⟨-1, 1, 0⟩

/-- `Hex::neighbors` from `src/hex.rs`: order `[ne, nw, se, sw, e, w]`. -/
def neighbors (a : Hex) : List Hex :=
  [a.hexNE, a.hexNW, a.hexSE, a.hexSW, a.hexE, a.hexW]

/-- `Hex::neighbors` from `hive/src/hex.rs`, whose order differs from the
`src` crate: `[ne, e, se, sw, w, nw]`.  Used by the embedding of the
`hive` crate (`get_turn_string`). -/
def neighbors_ring (a : Hex) : List Hex :=
  [a.hexNE, a.hexE, a.hexSE, a.hexSW, a.hexW, a.hexNW]

/-- `Hex::is_adj` from `src/hex.rs`: membership in the neighbor list. -/
def is_adj (a b : Hex) : Bool := (a.neighbors).contains b

/-- `Hex::get_empty_neighbors` from `src/hex.rs`.  The Rust code builds the
set of all neighbors of `hexes` and subtracts `hexes`; the embedding
returns a duplicate-free list with exactly that membership. -/
def get_empty_neighbors (hexes : List Hex) : List Hex :=
  (((hexes.map neighbors).flatten).filter (fun h => ¬ hexes.contains h)).dedup

/-- Worklist form of the plain `dfs` from `src/hex.rs`: accumulates the set
of hexes of `hexes` reachable through `hexes` from the initial stack.
`fuel` bounds the number of worklist pops; `dfs_fuel` below always
suffices, so the embedding computes the same visited set as the Rust
recursion. -/
def dfsList (hexes : List Hex) : Nat → List Hex → List Hex → List Hex
  | 0, visited, _ => visited
  | _ + 1, visited, [] => visited
  | fuel + 1, visited, h :: stack =>
    if visited.contains h then dfsList hexes fuel visited stack
    else dfsList hexes fuel (h :: visited)
      ((h.neighbors.filter (fun n => hexes.contains n)) ++ stack)

/-- Fuel bound for `dfsList`: at most `hexes.length + 1` distinct hexes are
ever pushed, each at most 6 times, plus the initial element. -/
def dfs_fuel (hexes : List Hex) : Nat := 7 * (hexes.length + 1) + 1

/-- `Hex::all_contiguous` from `src/hex.rs`: false on the empty list, else
true iff the DFS from the first element visits as many hexes as there are
elements (the callers pass duplicate-free key lists). -/
def all_contiguous (hexes : List Hex) : Bool :=
  match hexes with
  | [] => false
  | start :: _ =>
    (dfsList hexes (dfs_fuel hexes) [] [start]).length == hexes.length

/-- `Hex::get_pincers` from `src/hex.rs`: the mutual neighbors of the two
hexes, when there are two of them.  The Rust code intersects the two
neighbor `HashSet`s; both uses of the result are symmetric in the pair,
so the deterministic list order here is immaterial. -/
def get_pincers (a b : Hex) : Option (Hex × Hex) :=
  if a = b then none
  else
    match (a.neighbors).filter (fun h => (b.neighbors).contains h) with
    | [p, q] => some (p, q)
    | _ => none

/-- The gate test inside `dfs_with_gate_checks` (`src/hex.rs` lines
117-123): with a non-empty barrier list, a step is skipped unless exactly
one of the two pincers is a barrier.  The `none` branch mirrors the Rust
`unwrap`, which never fires because the step target is always adjacent. -/
def gate_ok (barriers : List Hex) (a b : Hex) : Bool :=
  if barriers.length > 0 then
    match get_pincers a b with
    | some (p, q) => barriers.contains p != barriers.contains q
    | none => false
  else true

/-- `dfs_with_gate_checks` from `src/hex.rs`.  Returns the collected result
list together with the final visited set; with `max_dist = none` the
visited set is threaded through sibling calls (shared `&mut` in Rust),
with `max_dist = some _` each recursive call receives the current visited
set and its additions are discarded (the Rust clone). -/
def dfsGate (hexes barriers : List Hex) (max_dist : Option Nat) :
    Nat → Hex → List Hex → Nat → (List Hex × List Hex)
  | 0, _, visited, _ => ([], visited)
  | fuel + 1, hex, visited, dist =>
    let visited := hex :: visited
    if max_dist = some dist then ([hex], visited)
    else
      (hex.neighbors).foldl
        (fun (acc : List Hex × List Hex) neighbor =>
          if hexes.contains neighbor ∧ ¬ acc.2.contains neighbor
              ∧ gate_ok barriers hex neighbor then
            match max_dist with
            | none =>
              let r := dfsGate hexes barriers none fuel neighbor acc.2 (dist + 1)
              (acc.1 ++ r.1, r.2)
            | some m =>
              let r := dfsGate hexes barriers (some m) fuel neighbor acc.2 (dist + 1)
              (acc.1 ++ r.1, acc.2)
          else acc)
        ([], visited)

/-- Fuel bound for `dfsGate`: the recursion depth is bounded by the number
of distinct visitable hexes (all from `hexes`, plus the start) in the
unbounded case and by `max_dist` in the bounded case. -/
def gate_fuel (hexes : List Hex) (max_dist : Option Nat) : Nat :=
  hexes.length + max_dist.getD 0 + 2

/-- `Hex::pathfind` from `src/hex.rs`. -/
def pathfind (start : Hex) (hexes barriers : List Hex) (dist : Option Nat) :
    List Hex :=
  if dist = some 0 then [start]
  else
    let r := dfsGate hexes barriers dist (gate_fuel hexes dist) start [] 0
    match dist with
    | some _ => r.1
    | none => r.2.filter (fun h => h ≠ start)

end Hex

/-! ## Association-list embedding of the Rust `HashMap`s -/

/-- `HashMap::get` (as an association-list lookup). -/
def lookupA {α : Type} (m : List (Hex × α)) (h : Hex) : Option α :=
  (m.find? (fun e => e.1 == h)).map (fun e => e.2)

/-- `HashMap::contains_key`. -/
def containsKey {α : Type} (m : List (Hex × α)) (h : Hex) : Bool :=
  (lookupA m h).isSome

/-- `HashMap::insert` (replacing any existing binding, keeping keys unique). -/
def insertA {α : Type} (m : List (Hex × α)) (h : Hex) (v : α) : List (Hex × α) :=
  if containsKey m h then m.map (fun e => if e.1 == h then (h, v) else e)
  else (h, v) :: m

/-- `HashMap::remove`. -/
def eraseA {α : Type} (m : List (Hex × α)) (h : Hex) : List (Hex × α) :=
  m.filter (fun e => ¬ e.1 == h)

/-- `HashMap::keys`. -/
def keysA {α : Type} (m : List (Hex × α)) : List Hex := m.map (fun e => e.1)

/-! ## The data model of `src/game_state.rs` -/

/-- `GameType` from `src/game_state.rs`. -/
inductive GameType where
  | Base
  | PLM (pillbug ladybug mosquito : Bool)
deriving DecidableEq, Repr

/-- `TurnError` from `src/game_state.rs`. -/
inductive TurnError where
  | WrongPlayer
  | InvalidMove
  | GameOver
deriving DecidableEq, Repr

/-- `GameStatus` from `src/game_state.rs`. -/
inductive GameStatus where
  | NotStarted
  | InProgress
  | Draw
  | Win (winner : Player)
deriving DecidableEq, Repr

/-- The `match` at the top of `GameState::submit_turn`: `Win`/`Draw` is
terminal. -/
def GameStatus.isTerminal : GameStatus → Bool
  | .Draw => true
  | .Win _ => true
  | _ => false

/-- `Turn` from `src/game_state.rs`. -/
inductive Turn where
  | Place (piece : Piece) (hex : Hex)
  | Move (piece : Piece) (hex : Hex)
  | Pass
deriving DecidableEq, Repr

/-- `GameState` from `src/game_state.rs`. -/
structure GameState where
  unplayed_pieces : List Piece
  board : List (Hex × Piece)
  -- the source field is named `stacks`; that word is reserved in this
  -- toolchain, so the embedding calls it `piece_stacks`
  piece_stacks : List (Hex × List Piece)
  turns : List Turn
  current_player : Player
  status : GameStatus
  game_type : GameType
deriving DecidableEq, Repr

/-- `get_initial_pieces` from `src/game_state.rs`. -/
def get_initial_pieces (game_type : GameType) : List Piece :=
  [Player.White, Player.Black].flatMap (fun player =>
    Piece.new_set .Ant player 3 ++
    Piece.new_set .Grasshopper player 3 ++
    Piece.new_set .Beetle player 2 ++
    Piece.new_set .Spider player 2 ++
    [Piece.new .Queen player] ++
    (match game_type with
     | .PLM pillbug ladybug mosquito =>
        (if pillbug then [Piece.new .Pillbug player] else []) ++
        (if ladybug then [Piece.new .Ladybug player] else []) ++
        (if mosquito then [Piece.new .Mosquito player] else [])
     | .Base => []))

/-- `GameState::new_with_type` from `src/game_state.rs`. -/
def GameState.new_with_type (first_player : Player) (game_type : GameType) :
    GameState :=
  { unplayed_pieces := get_initial_pieces game_type
    board := []
    piece_stacks := []
    turns := []
    current_player := first_player
    status := .NotStarted
    game_type := game_type }

/-- `GameState::new` from `src/game_state.rs`. -/
def GameState.new (first_player : Player) : GameState :=
  GameState.new_with_type first_player .Base

/-- `GameState::turn_no` from `src/game_state.rs`. -/
def GameState.turn_no (s : GameState) : Nat := s.turns.length + 1

/-- `GameState::get_hex_for_piece` from `src/game_state.rs`: the board first,
then underneath the stacks. -/
def GameState.get_hex_for_piece (s : GameState) (piece : Piece) : Option Hex :=
  match (s.board.find? (fun e => e.2 == piece)).map (fun e => e.1) with
  | some h => some h
  | none => (s.piece_stacks.find? (fun e => e.2.contains piece)).map (fun e => e.1)

/-- `GameState::check_one_hive_rule` from `src/game_state.rs`: the flip-count
shortcut over the (original) board's occupancy of the hex's neighbors, and
the full contiguity check otherwise.  Note that the Rust shortcut walks
`neighbors()` in the `src/hex.rs` order `[ne, nw, se, sw, e, w]`. -/
def GameState.check_one_hive_rule (s : GameState) (board : List Hex)
    (piece : Hex) : Bool :=
  let r := (piece.neighbors.enum).foldl
    (fun (st : Bool × Nat) (e : Nat × Hex) =>
      if containsKey s.board e.2 then
        if ¬ st.1 then (true, if e.1 > 0 then st.2 + 1 else st.2) else st
      else if st.1 then (false, st.2 + 1) else st)
    (false, 0)
  if r.2 ≤ 2 then true else Hex.all_contiguous board

/-- `GameState::get_pillbug_tosses` from `src/game_state.rs`. -/
def GameState.get_pillbug_tosses (s : GameState) (hex : Hex) : List Turn :=
  let neighbors := hex.neighbors.filter (fun h => containsKey s.board h)
  let empty := hex.neighbors.filter (fun h => ¬ containsKey s.board h)
  ((((neighbors.filter (fun neighbor =>
        match s.turns.getLast? with
        | some (Turn.Move _ h) => h ≠ neighbor
        | _ => true)).filter (fun neighbor =>
        match lookupA s.piece_stacks neighbor with
        | some stack => stack.length == 0
        | none => true)).filter (fun neighbor =>
        let board_without_neighbor := eraseA s.board neighbor
        s.check_one_hive_rule (keysA board_without_neighbor) neighbor))).flatMap
    (fun neighbor =>
      match lookupA s.board neighbor with
      | some neighbor_piece => empty.map (fun dest => Turn.Move neighbor_piece dest)
      | none => [])

/-- The grasshopper hop loop inside `GameState::get_piece_moves`: keep
travelling in `direction` until the first unoccupied hex.  Each iteration
lands on a distinct occupied hex, so `s.board.length + 1` fuel always
suffices. -/
def grasshopper_travel (s : GameState) (neighbor direction : Hex) :
    Nat → Hex → Hex
  | 0, travel => travel
  | fuel + 1, travel =>
    if containsKey s.board (neighbor.add travel) then
      grasshopper_travel s neighbor direction fuel (travel.add direction)
    else travel

/-- `GameState::get_piece_moves` from `src/game_state.rs`.  The Mosquito
arm recursively calls `get_piece_moves` only with a non-Mosquito piece, so
the recursion depth is at most 2; `fuel` makes that explicit (callers pass
2, and the 0 case is unreachable).  The Rust `unreachable!()` arms in the
Mosquito move-rewriting closures (a recursive call never produces `Place`
or `Pass`) are embedded as `filterMap` dropping non-`Move` turns. -/
def get_piece_moves_core : Nat → GameState → Piece → Hex → List Turn
  | 0, _, _, _ => []
  | fuel + 1, s, piece, start =>
    let board_removed := eraseA s.board start
    let stack_top := (lookupA s.piece_stacks start).bind List.getLast?
    let on_hive := stack_top.isSome
    let board_without_piece :=
      match stack_top with
      | some under => insertA board_removed start under
      | none => board_removed
    let pieces_after_pickup := keysA board_without_piece
    if ¬ on_hive ∧ ¬ s.check_one_hive_rule pieces_after_pickup start then
      match piece.bug with
      | .Pillbug => s.get_pillbug_tosses start
      | .Mosquito =>
        if ((start.neighbors.filterMap (lookupA s.board)).find?
            (fun neighbor_piece => neighbor_piece.bug == .Pillbug)).isSome then
          s.get_pillbug_tosses start
        else []
      | _ => []
    else
      let spaces_after_pickup := Hex.get_empty_neighbors pieces_after_pickup
      match piece.bug with
      | .Ant =>
        (Hex.pathfind start spaces_after_pickup pieces_after_pickup none).map
          (fun e => Turn.Move piece e)
      | .Beetle =>
        let barriers := if on_hive then [] else pieces_after_pickup
        ((Hex.pathfind start spaces_after_pickup barriers (some 1)) ++
          (Hex.pathfind start pieces_after_pickup [] (some 1))).map
          (fun e => Turn.Move piece e)
      | .Queen =>
        (Hex.pathfind start spaces_after_pickup pieces_after_pickup (some 1)).map
          (fun e => Turn.Move piece e)
      | .Spider =>
        (Hex.pathfind start spaces_after_pickup pieces_after_pickup (some 3)).map
          (fun e => Turn.Move piece e)
      | .Grasshopper =>
        (start.neighbors.filter (fun n => containsKey s.board n)).map
          (fun neighbor =>
            let direction := neighbor.sub start
            let travel := grasshopper_travel s neighbor direction
              (s.board.length + 1) direction
            Turn.Move piece (neighbor.add travel))
      | .Pillbug =>
        (Hex.pathfind start spaces_after_pickup pieces_after_pickup (some 1)).map
          (fun e => Turn.Move piece e) ++ s.get_pillbug_tosses start
      | .Ladybug =>
        (Hex.pathfind start pieces_after_pickup [] (some 2)).flatMap
          (fun on_top =>
            (on_top.neighbors.filter (fun n => ¬ containsKey s.board n)).map
              (fun e => Turn.Move piece e))
      | .Mosquito =>
        if on_hive then
          (get_piece_moves_core fuel s (Piece.new .Beetle piece.owner) start).filterMap
            (fun t => match t with
              | Turn.Move _ dest => some (Turn.Move piece dest)
              | _ => none)
        else
          ((start.neighbors.filterMap (lookupA s.board)).filter
            (fun neighbor_piece => neighbor_piece.bug != .Mosquito)).flatMap
            (fun neighbor_piece =>
              if neighbor_piece.bug = .Pillbug then
                (Hex.pathfind start spaces_after_pickup pieces_after_pickup
                  (some 1)).map (fun e => Turn.Move piece e) ++
                  s.get_pillbug_tosses start
              else
                (get_piece_moves_core fuel s neighbor_piece start).filterMap
                  (fun t => match t with
                    | Turn.Move _ dest => some (Turn.Move piece dest)
                    | _ => none))

/-- `GameState::get_piece_moves` at its actual recursion depth. -/
def GameState.get_piece_moves (s : GameState) (piece : Piece) (start : Hex) :
    List Turn :=
  get_piece_moves_core 2 s piece start

/-- `GameState::get_placeable_pieces` from `src/game_state.rs`. -/
def GameState.get_placeable_pieces (s : GameState) : List Piece :=
  let general :=
    let lowest_id := fun (b : Bug) =>
      (((s.unplayed_pieces.filter (fun p => p.owner == s.current_player)).filter
        (fun p => p.bug == b)).map (fun p => p.id)).min?
    ((s.unplayed_pieces.filter
        (fun piece => s.turn_no > 2 ∨ piece.bug ≠ .Queen)).filter
      (fun piece => some piece.id = lowest_id piece.bug)).filter
      (fun piece => piece.owner == s.current_player)
  if s.turn_no = 7 ∨ s.turn_no = 8 then
    let player_queen := Piece.new .Queen s.current_player
    if s.unplayed_pieces.contains player_queen then [player_queen] else general
  else general

/-- `GameState::get_valid_moves` from `src/game_state.rs`. -/
def GameState.get_valid_moves (s : GameState) : List Turn :=
  let open_hexes :=
    match s.status with
    | .NotStarted => [ORIGIN]
    | _ => Hex.get_empty_neighbors (keysA s.board)
  let placements :=
    (s.get_placeable_pieces).flatMap (fun piece =>
      (open_hexes.filter (fun hex =>
        if s.turn_no > 2 then
          (s.board.filter (fun e => e.2.owner ≠ s.current_player)).all
            (fun e => ¬ Hex.is_adj e.1 hex)
        else true)).map (fun hex => Turn.Place piece hex))
  let moves := placements ++
    (if ¬ s.unplayed_pieces.contains (Piece.new .Queen s.current_player) then
      ((s.board.filter (fun e => e.2.owner == s.current_player)).filter
        (fun e =>
          match s.turns.getLast? with
          | some (Turn.Move moved_piece _) => e.2 ≠ moved_piece
          | _ => true)).flatMap (fun e => s.get_piece_moves e.2 e.1)
    else [])
  if moves.length == 0 then [Turn.Pass] else moves

/-- The queen-surround test in the win-check loop at the end of
`GameState::submit_turn_unchecked`: the queen of color `c` is somewhere in
play (board or stacks) and all six of its neighbor hexes are occupied. -/
def GameState.surroundedQ (s : GameState) (c : Player) : Bool :=
  match s.get_hex_for_piece (Piece.new .Queen c) with
  | some queen =>
    (queen.neighbors.filter (fun h => containsKey s.board h)).length == 6
  | none => false

/-- The win-check loop at the end of `GameState::submit_turn_unchecked`:
for each surrounded queen set `Win` of the opposite color, and if both are
surrounded set `Draw`. -/
def GameState.update_win_status (s : GameState) : GameState :=
  let s1 := if s.surroundedQ .White then
    { s with status := .Win (Player.White.other) } else s
  let s2 := if s.surroundedQ .Black then
    { s1 with status := .Win (Player.Black.other) } else s1
  if s.surroundedQ .White ∧ s.surroundedQ .Black then
    { s2 with status := .Draw } else s2

/-- The `match turn` mutation block in the middle of
`GameState::submit_turn_unchecked` (`src/game_state.rs`).  The Rust
`unwrap` of `get_hex_for_piece` for a `Move` (which panics when the moved
piece is nowhere in play, and never fires on accepted turns) is embedded
as leaving the board untouched in the impossible `none` case. -/
def GameState.apply_turn (s : GameState) (turn : Turn) : GameState :=
  match turn with
  | .Place piece hex =>
    { s with board := insertA s.board hex piece
             unplayed_pieces := s.unplayed_pieces.filter (fun p => p ≠ piece) }
  | .Move piece dest =>
    match s.get_hex_for_piece piece with
    | none => s
    | some from_hex =>
      let s := { s with board := eraseA s.board from_hex }
      let s :=
        match lookupA s.piece_stacks from_hex with
        | some stack =>
          match stack.getLast? with
          | some under =>
            { s with board := insertA s.board from_hex under
                     piece_stacks := insertA s.piece_stacks from_hex stack.dropLast }
          | none => s
        | none => s
      let existing := lookupA s.board dest
      let s := { s with board := insertA s.board dest piece }
      match existing with
      | some ex =>
        { s with piece_stacks :=
            insertA s.piece_stacks dest ((lookupA s.piece_stacks dest).getD [] ++ [ex]) }
      | none => s
  | .Pass => s

/-- `GameState::submit_turn_unchecked` from `src/game_state.rs` up to (but
not including) its final win-check loop: status kick-off, player toggle,
board mutation, history push. -/
def GameState.pre_win_state (s : GameState) (turn : Turn) : GameState :=
  let s := if s.status = .NotStarted then { s with status := .InProgress } else s
  let s := { s with current_player := s.current_player.other }
  let s := s.apply_turn turn
  { s with turns := s.turns ++ [turn] }

/-- `GameState::submit_turn_unchecked` from `src/game_state.rs`: the
mutation, then the win check. -/
def GameState.submit_turn_unchecked (s : GameState) (turn : Turn) : GameState :=
  (s.pre_win_state turn).update_win_status

/-- `GameState::submit_turn` from `src/game_state.rs`. -/
def GameState.submit_turn (s : GameState) (turn : Turn) :
    Except TurnError GameState :=
  match s.status with
  | .Win _ => .error .GameOver
  | .Draw => .error .GameOver
  | _ =>
    if turn ≠ .Pass ∧ ¬ (s.get_valid_moves).contains turn then
      .error .InvalidMove
    else .ok (s.submit_turn_unchecked turn)

/-- `submit_turn` as it acts on the Rust `&mut self`: an error leaves the
state exactly as it was. -/
def GameState.submit_turn_mut (s : GameState) (turn : Turn) :
    Except TurnError Unit × GameState :=
  match s.submit_turn turn with
  | .ok s' => (.ok (), s')
  | .error e => (.error e, s)

/-- Running a whole sequence of turns through `submit_turn_mut`, keeping
whatever state each call leaves behind. -/
def GameState.run_turns (s : GameState) (l : List Turn) : GameState :=
  l.foldl (fun st t => (st.submit_turn_mut t).2) s

/-- Running a sequence of turns where every single one must be accepted
by `submit_turn`; `none` as soon as one is rejected. -/
def play_all (s : GameState) (l : List Turn) : Option GameState :=
  l.foldlM (fun st t => (st.submit_turn t).toOption) s

/-! ## The `Display` impl for `GameState` (`src/engine.rs` lines 96-113) -/

/-- The bracketed number in the current-player token of the formatted game
string: `src/engine.rs` line 98 computes `(self.turn_no() + 1) / 2` (and
`hive/src/engine.rs` line 125 is identical). -/
def GameState.player_move_count (s : GameState) : Nat := (s.turn_no + 1) / 2

/-- The `Display` string of a `Player` (`src/engine.rs`). -/
def Player.displayString : Player → String
  | .White => "White"
  | .Black => "Black"

/-- The current-player token `{player}[{count}]` of the formatted game
string (`src/engine.rs` line 98). -/
def GameState.turn_token (s : GameState) : String :=
  s.current_player.displayString ++ "[" ++ toString s.player_move_count ++ "]"

/-! ## The rollout policy of `src/ai/mod.rs` / `hive/src/ai.rs` -/

/-- `get_queen_and_liberties` from `src/ai/mod.rs`. -/
def get_queen_and_liberties (game : GameState) (player : Player) :
    Option (Hex × Nat) :=
  match game.get_hex_for_piece (Piece.new .Queen player) with
  | some queen =>
    some (queen, (queen.neighbors.filter (fun h => containsKey game.board h)).length)
  | none => none

/-- `score_turn` from `src/ai/mod.rs`.  The `f64` score is a sum of signed
queen-liberty counts and therefore always integer-valued; it is embedded
as `Int`.  The Rust `unwrap` of the moving piece's hex (which panics when
the piece is nowhere in play; the AI only passes moves of on-board
pieces) is embedded as defaulting to `ORIGIN`. -/
def score_turn (game : GameState) (turn : Turn) : Int :=
  match turn with
  | .Move piece tohex =>
    let fromhex := (game.get_hex_for_piece piece).getD ORIGIN
    let black_part : Int :=
      match get_queen_and_liberties game .Black with
      | some (queen_hex, libs) =>
        (if queen_hex = tohex ∨ queen_hex.neighbors.contains tohex
          then -(libs : Int) else 0) +
        (if queen_hex.neighbors.contains fromhex then (libs : Int) else 0)
      | none => 0
    let white_part : Int :=
      match get_queen_and_liberties game .White with
      | some (queen_hex, libs) =>
        (if queen_hex = tohex ∨ queen_hex.neighbors.contains tohex
          then (libs : Int) else 0) +
        (if queen_hex.neighbors.contains fromhex then -(libs : Int) else 0)
      | none => 0
    black_part + white_part
  | _ => 0

/-- One iteration of the best-candidate loop of `select_action`
(`src/ai/mod.rs` lines 120-130): keep the strictly better turn and its
score (`>` for Black to move, `<` for White). -/
def select_step (game : GameState) (best : Turn × Int) (turn : Turn) :
    Turn × Int :=
  let score := score_turn game turn
  let is_better : Bool :=
    match game.current_player with
    | .Black => decide (score > best.2)
    | .White => decide (score < best.2)
  if is_better then (turn, score) else best

/-- The best-candidate loop of `select_action` (`src/ai/mod.rs` lines
117-130), started from `split_first`'s head. -/
def select_action_fold (game : GameState) (first : Turn) (rest : List Turn) :
    Turn × Int :=
  rest.foldl (select_step game) (first, score_turn game first)

/-- `select_action` from `src/ai/mod.rs` / `hive/src/ai.rs`, with the
`thread_rng` choice abstracted: `none` means the uniform random fallback
over all candidates fires (`best_score == 0.0`), `some t` means the
deterministic best candidate `t` is returned.  The Rust `unwrap` on an
empty candidate list panics; embedded as `none`. -/
def select_action_det (game : GameState) (actions : List Turn) : Option Turn :=
  match actions with
  | [] => none
  | first :: rest =>
    let best := select_action_fold game first rest
    if best.2 = 0 then none else some best.1

/-! ## `Engine::handle_undo` (`hive/src/engine.rs` lines 233-257) -/

/-- The outcome of `Engine::handle_undo`: a successful reply carrying the
replayed game, an `err …` reply, or a panic (the `unreachable!()` arm, or
a failed `assert!` during replay). -/
inductive UndoOutcome where
  | ok (g : GameState)
  | err
  | fatal
deriving Repr

/-- `Engine::handle_undo` from `hive/src/engine.rs`, after the command
argument has been parsed to the number `n` (an unparsable argument errors
out before this logic).  The `hive` crate's `game_state.rs` is not among
the sources; its `GameState` is modelled by the `src` crate's embedding
above, which implements the identical `submit_turn` of spec §4.2.4 (the
branch this development reasons about, the empty-history `unreachable!()`
arm, never reaches `submit_turn` at all). -/
def handle_undo (game : Option GameState) (n : Nat) : UndoOutcome :=
  match game with
  | none => UndoOutcome.err
  | some g =>
    if n > g.turns.length then UndoOutcome.err
    else
      let new_turns := g.turns.take (g.turns.length - n)
      match g.turns.head? with
      | some (Turn.Place piece _) =>
        match play_all (GameState.new_with_type piece.owner g.game_type)
            new_turns with
        | some new_game => UndoOutcome.ok new_game
        | none => UndoOutcome.fatal
      | _ => UndoOutcome.fatal

/-! ## Concrete games and states used by the claim theorems -/

/-- A five-turn game from a fresh base game (Black first): a straight
west-east line `bQ1 (-1,1,0) — bA1 (0,0,0) — wS1 (1,-1,0) — wQ1 (2,-2,0)`
is built by four placements, and then the ant in the middle of the line
moves away to `(1,0,-1)`. -/
def one_hive_trail : List Turn := [
  .Place (Piece.new .Ant .Black) ORIGIN,
  .Place (Piece.new .Spider .White) ⟨1, -1, 0⟩,
  .Place (Piece.new .Queen .Black) ⟨-1, 1, 0⟩,
  .Place (Piece.new .Queen .White) ⟨2, -2, 0⟩,
  .Move (Piece.new .Ant .Black) ⟨1, 0, -1⟩]

/-- The result of submitting `one_hive_trail` turn by turn. -/
def one_hive_result : Option GameState :=
  play_all (GameState.new .Black) one_hive_trail

/-- The one-turn game behind the `src/engine.rs` test
`"Base;InProgress;Black[1];wS1"`: a fresh White base game after the
accepted first placement. -/
def one_turn_state : GameState :=
  (GameState.new .White).submit_turn_unchecked
    (.Place (Piece.new .Spider .White) ORIGIN)

/-- A state for exercising the rollout policy: the White queen at the
origin with a single black ant east of it, Black to move. -/
def rollout_state : GameState :=
  { unplayed_pieces := [Piece.mk 2 .Ant .Black]
    board := [(ORIGIN, Piece.new .Queen .White), (⟨1, -1, 0⟩, Piece.new .Ant .Black)]
    piece_stacks := []
    turns := []
    current_player := .Black
    status := .InProgress
    game_type := .Base }

/-- Moving the black ant far away from the white queen: scores `-1`. -/
def rollout_move_away : Turn := .Move (Piece.new .Ant .Black) ⟨5, -5, 0⟩

/-- Placing the second black ant far away: scores `0`. -/
def rollout_place : Turn := .Place (Piece.mk 2 .Ant .Black) ⟨9, -9, 0⟩

/-- A game whose status is `Draw` (for exercising the terminal-status
behavior of `submit_turn`). -/
def draw_state : GameState := { GameState.new .White with status := .Draw }

/-! ## The arena MCTS of `ai/src/mcts.rs`

The generic search is written against the `MonteCarloSearchable` trait;
the embedding keeps it generic over the game type `σ`, action type `α`
and player type `π`.  The only floating-point quantity in the search is
the `f64` UCB1 score (`ln`/`sqrt`); its exact value never matters for the
properties proved here, so the score used to pick the best child is an
arbitrary function parameter `ucb`—every theorem below holds for every
such function, in particular for the real UCB1. -/

/-- The `MonteCarloSearchable` trait of `ai/src/mcts.rs` (the methods a
host game provides). -/
structure MCHost (σ α π : Type) where
  terminalValue : σ → π → Option Bool
  possibleActions : σ → List α
  lastAction : σ → Option α
  applyAction : σ → α → σ
  selectAction : σ → List α → α
  currentPlayer : σ → π

/-- `StatsNode` from `ai/src/mcts.rs`. -/
structure StatsNode (σ α : Type) where
  n_visits : Nat
  total_wins : Nat
  game : σ
  unexplored_actions : List α
  idx : Nat
  parent : Option Nat
  children : List Nat

/-- `StatsNode::new` from `ai/src/mcts.rs`. -/
def StatsNode.newNode {σ α π : Type} (host : MCHost σ α π) (idx : Nat)
    (game : σ) (parent : Option Nat) : StatsNode σ α :=
  { n_visits := 0
    total_wins := 0
    game := game
    unexplored_actions := host.possibleActions game
    idx := idx
    parent := parent
    children := [] }

/-- `StatsNode::update` from `ai/src/mcts.rs`. -/
def StatsNode.update {σ α : Type} (v : StatsNode σ α) (n_wins : Nat) :
    StatsNode σ α :=
  { v with n_visits := v.n_visits + 1, total_wins := v.total_wins + n_wins }

/-- `StatsNode::is_expanded` from `ai/src/mcts.rs`. -/
def StatsNode.is_expanded {σ α : Type} (v : StatsNode σ α) : Bool :=
  v.unexplored_actions.length == 0

/-- `MCSearchTree::is_maxi_move` from `ai/src/mcts.rs` (out-of-range
indices, which panic in Rust, default to `false`). -/
def is_maxi_move {σ α π : Type} [DecidableEq π] (host : MCHost σ α π)
    (maxi : π) (arena : List (StatsNode σ α)) (node : Nat) : Bool :=
  match arena[node]? with
  | some v => host.currentPlayer v.game == maxi
  | none => false

/-- The exploitation term `total_wins / n_visits` of `MCSearchTree::ucb1`
(`ai/src/mcts.rs` line 115), as an exact rational. -/
def exploitation {σ α : Type} (arena : List (StatsNode σ α)) (child : Nat) :
    ℚ :=
  match arena[child]? with
  | some c => (c.total_wins : ℚ) / (c.n_visits : ℚ)
  | none => 0

/-- `MCSearchTree::best_child` from `ai/src/mcts.rs`, with the `f64` UCB1
value abstracted as the parameter `ucb`.  The Rust code panics on a
parent with no children (`split_first().unwrap()`); embedded as staying
at the parent. -/
def best_child {σ α π : Type} [DecidableEq π] (host : MCHost σ α π)
    (ucb : List (StatsNode σ α) → Nat → Nat → ℚ) (maxi : π)
    (arena : List (StatsNode σ α)) (parent_i : Nat) : Nat :=
  match arena[parent_i]? with
  | none => parent_i
  | some parent =>
    match parent.children with
    | [] => parent_i
    | first :: rest =>
      (rest.foldl
        (fun (best : Nat × ℚ) child_i =>
          let u := ucb arena parent_i child_i
          let is_better : Bool :=
            if is_maxi_move host maxi arena parent_i then decide (u > best.2)
            else decide (u < best.2)
          if is_better then (child_i, u) else best)
        (first, ucb arena parent_i first)).1

/-- `MCSearchTree::expand` from `ai/src/mcts.rs`: pop the host-chosen
action from the node's unexplored list, push the new child at the end of
the arena, and return its index. -/
def expandArena {σ α π : Type} [DecidableEq α] (host : MCHost σ α π)
    (arena : List (StatsNode σ α)) (node : Nat) :
    List (StatsNode σ α) × Nat :=
  match arena[node]? with
  | none => (arena, node)
  | some v =>
    let new_idx := arena.length
    let chosen_action := host.selectAction v.game v.unexplored_actions
    let v' := { v with
      unexplored_actions := v.unexplored_actions.filter (fun a => a ≠ chosen_action)
      children := v.children ++ [new_idx] }
    let new_game := host.applyAction v.game chosen_action
    (arena.set node v' ++ [StatsNode.newNode host new_idx new_game (some node)],
      new_idx)

/-- The selection loop of `MCSearchTree::select` from `ai/src/mcts.rs`:
descend through best children while the node is terminal-free and fully
expanded, expanding (and returning the new node) at the first node with
unexplored actions.  `fuel` bounds the loop; on the arenas the search
actually builds, children always have larger indices than their parents,
so `arena.length + 1` iterations always suffice. -/
def selectGo {σ α π : Type} [DecidableEq α] [DecidableEq π]
    (host : MCHost σ α π) (ucb : List (StatsNode σ α) → Nat → Nat → ℚ)
    (maxi : π) (arena : List (StatsNode σ α)) :
    Nat → Nat → List (StatsNode σ α) × Nat
  | 0, v => (arena, v)
  | fuel + 1, v =>
    match arena[v]? with
    | none => (arena, v)
    | some nd =>
      if (host.terminalValue nd.game maxi).isSome then (arena, v)
      else if ¬ nd.is_expanded then expandArena host arena v
      else selectGo host ucb maxi arena fuel (best_child host ucb maxi arena v)

/-- `MonteCarloSearchable::simulate` from `ai/src/mcts.rs`: play
host-selected actions until a terminal value appears, or give up with
`None` once `max_depth` is exceeded (the Rust loop checks the depth
cutoff before the terminal test; `max_depth + 1` terminal tests happen at
most). -/
def simulateRollout {σ α π : Type} (host : MCHost σ α π) (maxi : π) :
    Nat → σ → Option Bool
  | 0, _ => none
  | fuel + 1, game =>
    match host.terminalValue game maxi with
    | some reward => some reward
    | none =>
      let turn := host.selectAction game (host.possibleActions game)
      simulateRollout host maxi fuel (host.applyAction game turn)

/-- The walk of `MCSearchTree::backup` from `ai/src/mcts.rs`: update every
node from `v` up through the parent links.  `fuel` bounds the walk; on
the arenas the search builds, parent indices strictly decrease, so
`arena.length` steps always suffice. -/
def backupGo {σ α : Type} (n_wins : Nat) :
    Nat → List (StatsNode σ α) → Option Nat → List (StatsNode σ α)
  | 0, arena, _ => arena
  | _ + 1, arena, none => arena
  | fuel + 1, arena, some v =>
    match arena[v]? with
    | none => arena
    | some nd => backupGo n_wins fuel (arena.set v (nd.update n_wins)) nd.parent

/-- One iteration of the loop in `MCSearchTree::find_best_action`
(`ai/src/mcts.rs` lines 74-79): select (expanding at most one node),
simulate from the selected node, and back the result up. -/
def mctsIteration {σ α π : Type} [DecidableEq α] [DecidableEq π]
    (host : MCHost σ α π) (ucb : List (StatsNode σ α) → Nat → Nat → ℚ)
    (maxi : π) (max_depth : Nat) (arena : List (StatsNode σ α)) :
    List (StatsNode σ α) :=
  let sel := selectGo host ucb maxi arena (arena.length + 1) 0
  let n_wins : Nat :=
    match sel.1[sel.2]? with
    | some nd =>
      match simulateRollout host maxi (max_depth + 1) nd.game with
      | some true => 1
      | _ => 0
    | none => 0
  backupGo n_wins sel.1.length sel.1 (some sel.2)

/-- The arena `MCSearchTree::new` starts from: a single root node wrapping
the initial game. -/
def initialArena {σ α π : Type} (host : MCHost σ α π) (game : σ) :
    List (StatsNode σ α) :=
  [StatsNode.newNode host 0 game none]

/-- The arena after the first `n` iterations of
`MCSearchTree::find_best_action`. -/
def mctsLoop {σ α π : Type} [DecidableEq α] [DecidableEq π]
    (host : MCHost σ α π) (ucb : List (StatsNode σ α) → Nat → Nat → ℚ)
    (maxi : π) (max_depth : Nat) (game : σ) : Nat → List (StatsNode σ α)
  | 0 => initialArena host game
  | n + 1 => mctsIteration host ucb maxi max_depth
      (mctsLoop host ucb maxi max_depth game n)

/-- A trivial host used to instantiate the MCTS theorems on a concrete
input: a one-state game that is immediately terminal. -/
def unitHost : MCHost Unit Unit Bool :=
  { terminalValue := fun _ _ => some true
    possibleActions := fun _ => []
    lastAction := fun _ => none
    applyAction := fun _ _ => ()
    selectAction := fun _ _ => ()
    currentPlayer := fun _ => true }

/-! ## Move notation: `hive/src/engine.rs` / `hive/src/parser.rs`

The formatter `get_turn_string` and parser `parse_move_string` are
embedded at the character level; a move string is represented by its
whitespace-separated tokens (`get_turn_string` emits one or two tokens
joined by one space, and `parse_move_string` begins with
`split_whitespace`). -/

/-- The bug letter of the `Display` impl for `Piece`
(`hive/src/engine.rs` lines 79-88). -/
def Bug.letter : Bug → Char
  | .Ant => 'A'
  | .Beetle => 'B'
  | .Ladybug => 'L'
  | .Pillbug => 'P'
  | .Spider => 'S'
  | .Queen => 'Q'
  | .Mosquito => 'M'
  | .Grasshopper => 'G'

/-- The color letter of the `Display` impl for `Piece`. -/
def Player.letter : Player → Char
  | .White => 'w'
  | .Black => 'b'

/-- `"PLMQ".contains(name)` from the `Display` impl for `Piece`. -/
def Bug.is_unique : Bug → Bool
  | .Pillbug => true
  | .Ladybug => true
  | .Mosquito => true
  | .Queen => true
  | _ => false

/-- The `Display` impl for `Piece` (`hive/src/engine.rs` lines 73-95): the
id is printed in decimal, and omitted for the unique kinds. -/
def format_piece (p : Piece) : List Char :=
  if p.bug.is_unique then [p.owner.letter, p.bug.letter]
  else [p.owner.letter, p.bug.letter] ++ Nat.toDigits 10 p.id

/-- The id constraints every piece the program ever builds satisfies
(ids are 1..3, and unique kinds always carry id 1). -/
def piece_ok (p : Piece) : Prop :=
  1 ≤ p.id ∧ p.id ≤ 9 ∧ (p.bug.is_unique = true → p.id = 1)

/-- The single-character number parse of `parse_piece_string`
(`id_char.to_string().parse::<u8>()`). -/
def charToDigit (c : Char) : Option Nat :=
  if '0' ≤ c ∧ c ≤ '9' then some (c.toNat - '0'.toNat) else none

/-- `parse_piece_string` from `hive/src/parser.rs` (lines 153-177); note
the Rust code reads at most one id character and ignores anything after
it. -/
def parse_piece_string (cs : List Char) : Option Piece :=
  match cs with
  | [] => none
  | c :: rest =>
    let player? : Option Player :=
      if c = 'w' then some .White else if c = 'b' then some .Black else none
    match player? with
    | none => none
    | some player =>
      match rest with
      | [] => none
      | b :: rest2 =>
        let bug? : Option Bug :=
          match b with
          | 'A' => some .Ant
          | 'B' => some .Beetle
          | 'G' => some .Grasshopper
          | 'L' => some .Ladybug
          | 'M' => some .Mosquito
          | 'P' => some .Pillbug
          | 'Q' => some .Queen
          | 'S' => some .Spider
          | _ => none
        match bug? with
        | none => none
        | some bug =>
          match rest2 with
          | [] => some (Piece.new bug player)
          | i :: _ =>
            match charToDigit i with
            | some id => some ⟨id, bug, player⟩
            | none => none

/-- The formatter's reference search
(`hex.neighbors().iter().find_map(|n| game.board.get_key_value(n))` in
`get_turn_string`): the first occupied neighbor of the destination, in
the `hive` crate's ring order. -/
def first_occupied_neighbor (board : List (Hex × Piece)) (hex : Hex) :
    Option (Hex × Piece) :=
  ((Hex.neighbors_ring hex).filterMap
    (fun n => (lookupA board n).map (fun q => (n, q)))).head?

/-- The direction-token construction of `get_turn_string`
(`hive/src/engine.rs` lines 106-113): `none` is the `panic!` arm, which
never fires because the reference hex is adjacent to the destination. -/
def location_token (hex neighbor_hex : Hex) (neighbor_piece : Piece) :
    Option (List Char) :=
  let s := hex.sub neighbor_hex
  if s = ORIGIN.hexW then some ('-' :: format_piece neighbor_piece)
  else if s = ORIGIN.hexNW then some ('\\' :: format_piece neighbor_piece)
  else if s = ORIGIN.hexSW then some ('/' :: format_piece neighbor_piece)
  else if s = ORIGIN.hexE then some (format_piece neighbor_piece ++ ['-'])
  else if s = ORIGIN.hexNE then some (format_piece neighbor_piece ++ ['/'])
  else if s = ORIGIN.hexSE then some (format_piece neighbor_piece ++ ['\\'])
  else none

/-- `get_turn_string` from `hive/src/engine.rs` (lines 97-121), as the
token list of the produced move string. -/
def get_turn_string_toks (turn : Turn) (game : GameState) :
    List (List Char) :=
  match turn with
  | .Move target hex | .Place target hex =>
    match lookupA game.board hex with
    | some stacked_piece => [format_piece target, format_piece stacked_piece]
    | none =>
      match first_occupied_neighbor game.board hex with
      | some (neighbor_hex, neighbor_piece) =>
        match location_token hex neighbor_hex neighbor_piece with
        | some tok => [format_piece target, tok]
        | none => []
      | none => [format_piece target]
  | .Pass => [['p', 'a', 's', 's']]

/-- The destination-resolution block of `parse_move_string`
(`hive/src/parser.rs` lines 113-142): decode the reference piece and
optional direction glyph from the location token, look the reference
piece up on the board and then in the stacks, and apply the direction. -/
def parse_location_token (dest_tok : List Char) (board : List (Hex × Piece))
    (stack_map : List (Hex × List Piece)) : Option Hex :=
  match dest_tok with
  | [] => none
  | c0 :: _ =>
    let parsed : Option (Piece × Option (Bool × Char)) :=
      if c0 = 'w' ∨ c0 = 'b' then
        if dest_tok.any (fun c => c = '-' ∨ c = '/' ∨ c = '\\') then
          match dest_tok.getLast? with
          | some glyph =>
            (parse_piece_string dest_tok.dropLast).map
              (fun dp => (dp, some (true, glyph)))
          | none => none
        else (parse_piece_string dest_tok).map (fun dp => (dp, none))
      else
        match dest_tok with
        | glyph :: piece_chars =>
          (parse_piece_string piece_chars).map
            (fun dp => (dp, some (false, glyph)))
        | [] => none
    match parsed with
    | none => none
    | some (dest_piece, direction) =>
      let target_hex? : Option Hex :=
        match (board.find? (fun e => e.2 == dest_piece)).map
            (fun e => e.1) with
        | some hx => some hx
        | none =>
          (stack_map.find? (fun e => e.2.contains dest_piece)).map (fun e => e.1)
      match target_hex? with
      | none => none
      | some target_hex =>
        match direction with
        | some (true, '-') => some target_hex.hexE
        | some (true, '/') => some target_hex.hexNE
        | some (true, '\\') => some target_hex.hexSE
        | some (false, '-') => some target_hex.hexW
        | some (false, '/') => some target_hex.hexSW
        | some (false, '\\') => some target_hex.hexNW
        | some _ => none
        | none => some target_hex

/-- `parse_move_string` from `hive/src/parser.rs` (lines 107-151), on the
whitespace-separated tokens.  `none` is a parser error. -/
def parse_move_toks (toks : List (List Char)) (board : List (Hex × Piece))
    (stack_map : List (Hex × List Piece)) : Option Turn :=
  if toks = [['p', 'a', 's', 's']] then some Turn.Pass
  else
    match toks with
    | [] => none
    | piece_tok :: rest =>
      match parse_piece_string piece_tok with
      | none => none
      | some piece =>
        match rest with
        | [] => some (Turn.Place piece ORIGIN)
        | dest_tok :: _ =>
          match parse_location_token dest_tok board stack_map with
          | none => none
          | some dest_hex =>
            if board.any (fun e => e.2 == piece) then
              some (Turn.Move piece dest_hex)
            else some (Turn.Place piece dest_hex)

/-- The arena invariant behind C10: the arena is non-empty and every index
stored in some node's child list is in range and points at a node that has
been visited at least once (was backed up in the iteration that created
it). -/
def ArenaInv {σ α : Type} (arena : List (StatsNode σ α)) : Prop :=
  arena ≠ [] ∧
  ∀ nd ∈ arena, ∀ c ∈ nd.children,
    c < arena.length ∧ ∀ cd, arena[c]? = some cd → 1 ≤ cd.n_visits

/-- A two-state host for exercising the MCTS theorems concretely: from the
non-terminal state `false` the single action leads to the terminal state
`true`. -/
def boolHost : MCHost Bool Unit Bool :=
  { terminalValue := fun s _ => if s then some true else none
    possibleActions := fun s => if s then [] else [()]
    lastAction := fun _ => none
    applyAction := fun _ _ => true
    selectAction := fun _ _ => ()
    currentPlayer := fun _ => true }

/-- A trivial stand-in for the abstracted UCB1 score. -/
def zeroUcb : List (StatsNode Bool Unit) → Nat → Nat → ℚ := fun _ _ _ => 0

/-- The `boolHost` arena after one `find_best_action` iteration: the root
has expanded its single action into child 1, and both were backed up. -/
def demo_arena : List (StatsNode Bool Unit) :=
  mctsLoop boolHost zeroUcb true 0 false 1

/-! ## Claim theorems -/

/-- On a terminal status `submit_turn` fails with `GameOver` before
touching anything. -/
theorem submit_turn_terminal {s : GameState} (t : Turn)
    (h : s.status.isTerminal = true) : s.submit_turn t = .error .GameOver := by
  unfold GameState.submit_turn
  cases hs : s.status with
  | NotStarted => rw [hs] at h; exact absurd h (by simp [GameStatus.isTerminal])
  | InProgress => rw [hs] at h; exact absurd h (by simp [GameStatus.isTerminal])
  | Draw => rfl
  | Win c => rfl

theorem submit_turn_mut_terminal {s : GameState} (t : Turn)
    (h : s.status.isTerminal = true) :
    s.submit_turn_mut t = (.error .GameOver, s) := by
  unfold GameState.submit_turn_mut
  rw [submit_turn_terminal t h]

theorem run_turns_terminal {s : GameState} (h : s.status.isTerminal = true) :
    ∀ l : List Turn, s.run_turns l = s := by
  intro l
  induction l with
  | nil => rfl
  | cons t ts ih =>
    show GameState.run_turns ((s.submit_turn_mut t).2) ts = s
    rw [submit_turn_mut_terminal t h]
    exact ih

/-- On a non-terminal status `submit_turn` is exactly the legality gate
around `submit_turn_unchecked`. -/
theorem submit_turn_not_terminal {s : GameState} (t : Turn)
    (h : s.status.isTerminal = false) :
    s.submit_turn t =
      if t ≠ .Pass ∧ ¬ (s.get_valid_moves).contains t then .error .InvalidMove
      else .ok (s.submit_turn_unchecked t) := by
  unfold GameState.submit_turn
  cases hs : s.status with
  | NotStarted => rfl
  | InProgress => rfl
  | Draw => rw [hs] at h; exact absurd h (by simp [GameStatus.isTerminal])
  | Win c => rw [hs] at h; exact absurd h (by simp [GameStatus.isTerminal])

/-- C1: `submit_turn` fails with `GameOver` on terminal status, otherwise
fails with `InvalidMove` exactly when the turn is neither `Pass` nor one
of `get_valid_moves()`; every error leaves the state unchanged, and once
the status is terminal every further `submit_turn` call (after any
sequence of further calls) fails with `GameOver`. -/
theorem submit_turn_error_contract (s : GameState) (t : Turn) :
    (s.status.isTerminal = true → s.submit_turn_mut t = (.error .GameOver, s)) ∧
    (s.status.isTerminal = false →
      ((s.submit_turn_mut t).1 = .error .InvalidMove ↔
        (t ≠ .Pass ∧ t ∉ s.get_valid_moves))) ∧
    (∀ e, (s.submit_turn_mut t).1 = .error e → (s.submit_turn_mut t).2 = s) ∧
    (s.status.isTerminal = true → ∀ (l : List Turn) (t₂ : Turn),
      ((s.run_turns l).submit_turn_mut t₂).1 = .error .GameOver) := by
  refine ⟨fun h => submit_turn_mut_terminal t h, fun h => ?_, fun e he => ?_,
    fun h l t₂ => ?_⟩
  · unfold GameState.submit_turn_mut
    rw [submit_turn_not_terminal t h]
    by_cases hc : t ≠ .Pass ∧ ¬ (s.get_valid_moves).contains t
    · rw [if_pos hc]
      simpa [List.elem_iff] using hc
    · rw [if_neg hc]
      simp only [List.elem_iff] at hc
      simpa using hc
  · unfold GameState.submit_turn_mut at he ⊢
    cases hr : s.submit_turn t with
    | ok s' => rw [hr] at he; exact absurd he (by simp)
    | error e₂ => rfl
  · rw [run_turns_terminal h l, submit_turn_mut_terminal t₂ h]

/-- Witness for C1: a drawn game rejects a pass with `GameOver` leaving
the state unchanged, and a fresh game rejects the queen-first placement
with `InvalidMove`. -/
theorem submit_turn_error_contract_witness :
    GameStatus.Draw.isTerminal = true ∧
    draw_state.submit_turn_mut .Pass = (.error .GameOver, draw_state) ∧
    ((GameState.new .White).submit_turn_mut
        (.Place (Piece.new .Queen .White) ORIGIN)).1 = .error .InvalidMove := by
  refine ⟨rfl, (submit_turn_error_contract draw_state .Pass).1 rfl, ?_⟩
  exact ((submit_turn_error_contract (GameState.new .White)
      (.Place (Piece.new .Queen .White) ORIGIN)).2.1 rfl).mpr
    ⟨by decide, by decide⟩

/-- C6: on turns 1 and 2 the placeable pieces never include a Queen, and
on turn 7 or 8 with the mover's Queen still unplayed the placeable set is
exactly that Queen. -/
theorem placeable_pieces_queen_rules (s : GameState) :
    ((s.turn_no = 1 ∨ s.turn_no = 2) →
      ∀ p ∈ s.get_placeable_pieces, p.bug ≠ .Queen) ∧
    ((s.turn_no = 7 ∨ s.turn_no = 8) →
      Piece.new .Queen s.current_player ∈ s.unplayed_pieces →
      s.get_placeable_pieces = [Piece.new .Queen s.current_player]) := by
  constructor
  · intro h p hp
    unfold GameState.get_placeable_pieces at hp
    rw [if_neg (by rcases h with h | h <;> omega)] at hp
    simp only [List.mem_filter] at hp
    obtain ⟨⟨⟨-, hA⟩, -⟩, -⟩ := hp
    simp only [decide_eq_true_eq] at hA
    rcases hA with hA | hA
    · rcases h with h | h <;> omega
    · exact hA
  · intro h hq
    unfold GameState.get_placeable_pieces
    rw [if_pos h, if_pos (by simpa [List.elem_iff] using hq)]

/-- Witness for C6: the fresh Black game (turn 1) has no Queen among its
placeable pieces, and a concrete turn-7 state with the queen unplayed
yields exactly the queen. -/
theorem placeable_pieces_queen_rules_witness :
    ((GameState.new .Black).turn_no = 1 ∨ (GameState.new .Black).turn_no = 2) ∧
    (∀ p ∈ (GameState.new .Black).get_placeable_pieces, p.bug ≠ .Queen) ∧
    (Piece.new .Queen .Black ∉ (GameState.new .Black).get_placeable_pieces) := by
  refine ⟨Or.inl rfl, (placeable_pieces_queen_rules (GameState.new .Black)).1
    (Or.inl rfl), by decide⟩

/-- C2: the claim that every state reachable by accepted `submit_turn`
calls satisfies `all_contiguous(board.keys)` fails on the code.  The five
turns of `one_hive_trail` are all accepted from a fresh base game (so
`one_hive_result` is `some _`), yet the final board is disconnected: the
flip-count shortcut of `check_one_hive_rule` walks the neighbors in the
non-cyclic `src/hex.rs` order `[ne, nw, se, sw, e, w]`, sees the occupied
`e`/`w` pair of the middle-of-a-line ant as a single neighbor group, and
skips the full contiguity check, so the ant is allowed to move and strand
the black queen. -/
theorem one_hive_invariant_fails :
    one_hive_result.map (fun g => Hex.all_contiguous (keysA g.board))
      = some false := by
  decide

/-- C7 counterexample: for the state reached by one accepted first
placement (the `src/engine.rs` test `Base;InProgress;Black[1];wS1`), the
bracketed number of the current-player token is `1`, but
`ceil(turns.len()/2) + 1 = 2`. -/
theorem player_move_count_counterexample :
    ((GameState.new .White).submit_turn
        (.Place (Piece.new .Spider .White) ORIGIN)).toOption
      = some one_turn_state ∧
    one_turn_state.turns.length = 1 ∧
    one_turn_state.player_move_count = 1 ∧
    (one_turn_state.turns.length + 1) / 2 + 1 = 2 := by
  refine ⟨by decide, by decide, by decide, by decide⟩

/-- C7 amended: the bracketed number in the current-player token of the
formatted game string equals `floor(turns.len()/2) + 1` (the formula the
spec's §6 TurnString section states), not `ceil(turns.len()/2) + 1`. -/
theorem player_move_count_formula (s : GameState) :
    s.player_move_count = s.turns.length / 2 + 1 := by
  unfold GameState.player_move_count GameState.turn_no
  omega

/-- C9: `undo 0` on a freshly created game (a reachable engine state, and
`0` is no larger than the accepted history) drives `handle_undo` into its
`unreachable!()` arm, a panic — contradicting the claim that every
command returns normally with a response ending in `ok`. -/
theorem undo_zero_on_fresh_game_is_fatal :
    handle_undo (some (GameState.new .White)) 0 = UndoOutcome.fatal := by
  rfl

/-- C8 counterexample: with Black to move in `rollout_state`, the
candidate list `[rollout_move_away, rollout_place]` has scores `[-1, 0]`.
The best score is `0`, so `select_action` takes the uniform random
fallback even though not every candidate's score is zero — refuting
"falls back ... exactly when every candidate's score is zero" (and, since
the random choice may return the `-1` candidate, also "returns a
candidate with the highest heuristic score"). -/
theorem select_action_fallback_counterexample :
    select_action_det rollout_state [rollout_move_away, rollout_place] = none ∧
    score_turn rollout_state rollout_move_away = -1 := by
  refine ⟨by decide, by decide⟩

/-- The win check only rewrites `status`. -/
theorem update_win_status_board (s : GameState) :
    (s.update_win_status).board = s.board := by
  unfold GameState.update_win_status
  split_ifs <;> rfl

theorem update_win_status_stacks (s : GameState) :
    (s.update_win_status).piece_stacks = s.piece_stacks := by
  unfold GameState.update_win_status
  split_ifs <;> rfl

theorem surroundedQ_update_win_status (s : GameState) (c : Player) :
    (s.update_win_status).surroundedQ c = s.surroundedQ c := by
  unfold GameState.surroundedQ GameState.get_hex_for_piece
  rw [update_win_status_board, update_win_status_stacks]

/-- What the win-check loop does to `status`, as a single conditional. -/
theorem update_win_status_status (s : GameState) :
    (s.update_win_status).status =
      if s.surroundedQ .White ∧ s.surroundedQ .Black then .Draw
      else if s.surroundedQ .Black then .Win .White
      else if s.surroundedQ .White then .Win .Black
      else s.status := by
  unfold GameState.update_win_status
  by_cases hw : s.surroundedQ .White = true <;>
    by_cases hb : s.surroundedQ .Black = true <;>
      simp [hw, hb, Player.other]

/-- `apply_turn` never touches `status`. -/
theorem apply_turn_status (s : GameState) (t : Turn) :
    (s.apply_turn t).status = s.status := by
  unfold GameState.apply_turn
  cases t with
  | Place piece hex => rfl
  | Pass => rfl
  | Move piece dest =>
    dsimp only
    (repeat' split) <;> rfl

/-- After an accepted (non-terminal) turn the state just before the win
check is `InProgress`. -/
theorem pre_win_state_status (s : GameState) (t : Turn)
    (h : s.status.isTerminal = false) :
    (s.pre_win_state t).status = .InProgress := by
  cases hs : s.status with
  | NotStarted => simp [GameState.pre_win_state, apply_turn_status, hs]
  | InProgress => simp [GameState.pre_win_state, apply_turn_status, hs]
  | Draw => rw [hs] at h; exact absurd h (by simp [GameStatus.isTerminal])
  | Win c => rw [hs] at h; exact absurd h (by simp [GameStatus.isTerminal])

/-- An `ok` result of `submit_turn` is `submit_turn_unchecked` on a
non-terminal state. -/
theorem submit_turn_ok_eq {s : GameState} {t : Turn} {s' : GameState}
    (h : s.submit_turn t = .ok s') :
    s' = s.submit_turn_unchecked t ∧ s.status.isTerminal = false := by
  unfold GameState.submit_turn at h
  cases hs : s.status with
  | NotStarted =>
    rw [hs] at h
    refine ⟨?_, by simp [GameStatus.isTerminal]⟩
    by_cases hc : t ≠ Turn.Pass ∧ ¬ (s.get_valid_moves).contains t = true
    · rw [if_pos hc] at h; exact absurd h (by simp)
    · rw [if_neg hc] at h; cases h; rfl
  | InProgress =>
    rw [hs] at h
    refine ⟨?_, by simp [GameStatus.isTerminal]⟩
    by_cases hc : t ≠ Turn.Pass ∧ ¬ (s.get_valid_moves).contains t = true
    · rw [if_pos hc] at h; exact absurd h (by simp)
    · rw [if_neg hc] at h; cases h; rfl
  | Draw => rw [hs] at h; exact absurd h (by simp)
  | Win c => rw [hs] at h; exact absurd h (by simp)

/-- C4: after every accepted turn, `status = Win c` iff exactly one
in-play Queen is fully surrounded and it is the Queen of `c`'s opponent,
and `status = Draw` iff both Queens are surrounded by the same turn. -/
theorem win_detection (s : GameState) (t : Turn) (s' : GameState)
    (h : s.submit_turn t = .ok s') :
    (∀ c, s'.status = .Win c ↔
      (s'.surroundedQ c.other = true ∧ s'.surroundedQ c = false)) ∧
    (s'.status = .Draw ↔
      (s'.surroundedQ .White = true ∧ s'.surroundedQ .Black = true)) := by
  obtain ⟨rfl, hterm⟩ := submit_turn_ok_eq h
  unfold GameState.submit_turn_unchecked
  have hmid := pre_win_state_status s t hterm
  rw [and_comm]
  constructor
  · rw [update_win_status_status, surroundedQ_update_win_status,
      surroundedQ_update_win_status, hmid]
    by_cases hw : (s.pre_win_state t).surroundedQ .White = true <;>
      by_cases hb : (s.pre_win_state t).surroundedQ .Black = true <;>
        simp [hw, hb]
  · intro c
    rw [update_win_status_status, surroundedQ_update_win_status,
      surroundedQ_update_win_status, hmid]
    by_cases hw : (s.pre_win_state t).surroundedQ .White = true <;>
      by_cases hb : (s.pre_win_state t).surroundedQ .Black = true <;>
        cases c <;> simp [hw, hb, Player.other]

/-- Witness for C4: the accepted first placement of a fresh game leaves
an `InProgress` status, no surrounded queens, and the Draw/Win
characterization holds there. -/
theorem win_detection_witness :
    (GameState.new .White).submit_turn (.Place (Piece.new .Spider .White) ORIGIN)
      = .ok one_turn_state ∧
    (one_turn_state.status = .Draw ↔
      (one_turn_state.surroundedQ .White = true ∧
        one_turn_state.surroundedQ .Black = true)) := by
  have hsub : (GameState.new .White).submit_turn
      (.Place (Piece.new .Spider .White) ORIGIN) = .ok one_turn_state := by
    have : ((GameState.new .White).submit_turn
        (.Place (Piece.new .Spider .White) ORIGIN)).toOption
          = some one_turn_state := by decide
    cases h : (GameState.new .White).submit_turn
        (.Place (Piece.new .Spider .White) ORIGIN) <;>
      rw [h] at this <;> simp [Except.toOption] at this
    rw [this]
  exact ⟨hsub, (win_detection _ _ _ hsub).2⟩

/-- No hex is its own neighbor. -/
theorem mem_neighbors_ne {a b : Hex} (h : b ∈ Hex.neighbors a) : b ≠ a := by
  obtain ⟨x, y, z⟩ := a
  simp only [Hex.neighbors, Hex.hexNE, Hex.hexNW, Hex.hexSE, Hex.hexSW,
    Hex.hexE, Hex.hexW, Hex.add, List.mem_cons, List.mem_singleton,
    List.not_mem_nil, or_false] at h
  rcases h with h | h | h | h | h | h <;>
    (subst h; intro hc; rw [Hex.mk.injEq] at hc; omega)

/-- The neighbor fold of `dfs_with_gate_checks` in the bounded
(`max_dist = some m`) case: the visited set stays fixed and each passing
neighbor appends its recursive result. -/
theorem dfsGate_fold_some (hexes barriers : List Hex) (m fuel dist : Nat)
    (hex : Hex) (l : List Hex) (v : List Hex) (init : List Hex) :
    l.foldl
      (fun (acc : List Hex × List Hex) neighbor =>
        if hexes.contains neighbor ∧ ¬ acc.2.contains neighbor
            ∧ Hex.gate_ok barriers hex neighbor then
          (acc.1 ++ (Hex.dfsGate hexes barriers (some m) fuel neighbor acc.2
            (dist + 1)).1, acc.2)
        else acc)
      (init, v) =
    (init ++ (l.filter (fun n => hexes.contains n ∧ ¬ v.contains n
        ∧ Hex.gate_ok barriers hex n)).flatMap
      (fun n => (Hex.dfsGate hexes barriers (some m) fuel n v (dist + 1)).1),
      v) := by
  induction l generalizing init with
  | nil => simp
  | cons n l ih =>
    rw [List.foldl_cons, List.filter_cons]
    by_cases hg : hexes.contains n ∧ ¬ v.contains n
        ∧ Hex.gate_ok barriers hex n
    · rw [if_pos hg, ih, if_pos (by simpa using hg)]
      simp
    · rw [if_neg hg, ih, if_neg (by simpa using hg)]

/-- `pathfind` with `max_steps = 1` is exactly the neighbor filter of the
step guard. -/
theorem pathfind_one_step (start : Hex) (hexes barriers : List Hex) :
    Hex.pathfind start hexes barriers (some 1) =
      (Hex.neighbors start).filter
        (fun n => hexes.contains n ∧ ¬ [start].contains n
          ∧ Hex.gate_ok barriers start n) := by
  unfold Hex.pathfind
  rw [if_neg (by simp)]
  show (Hex.dfsGate hexes barriers (some 1) (hexes.length + 1 + 2) start [] 0).1
    = _
  have h2 : hexes.length + 1 + 2 = (hexes.length + 2) + 1 := by omega
  rw [h2]
  unfold Hex.dfsGate
  rw [if_neg (by simp)]
  dsimp only
  have h3 : hexes.length + 2 = (hexes.length + 1) + 1 := by omega
  rw [h3, dfsGate_fold_some]
  have hone : ∀ n v, (Hex.dfsGate hexes barriers (some 1)
      ((hexes.length + 1) + 1) n v (0 + 1)).1 = [n] := by
    intro n v
    unfold Hex.dfsGate
    rw [if_pos (by simp)]
  simp only [hone]
  rw [List.flatMap_singleton']
  simp

/-- C3: whenever `barriers` is non-empty, a single gated step from `start`
lands on `b` iff `b` is an adjacent walkable hex and exactly one of the
two pincers of the edge is in `barriers`; when both pincers or neither
pincer are barriers the step is never taken. -/
theorem pathfind_gate (start b : Hex) (hexes barriers : List Hex)
    (hb : barriers ≠ []) :
    (b ∈ Hex.pathfind start hexes barriers (some 1) ↔
      (b ∈ Hex.neighbors start ∧ b ∈ hexes ∧
        ∃ p q, Hex.get_pincers start b = some (p, q) ∧
          barriers.contains p ≠ barriers.contains q)) ∧
    (∀ p q, Hex.get_pincers start b = some (p, q) →
      barriers.contains p = barriers.contains q →
      b ∉ Hex.pathfind start hexes barriers (some 1)) := by
  have hlen : barriers.length > 0 := List.length_pos.mpr hb
  have hmain : b ∈ Hex.pathfind start hexes barriers (some 1) ↔
      (b ∈ Hex.neighbors start ∧ b ∈ hexes ∧
        ∃ p q, Hex.get_pincers start b = some (p, q) ∧
          barriers.contains p ≠ barriers.contains q) := by
    rw [pathfind_one_step, List.mem_filter]
    constructor
    · rintro ⟨hmem, hguard⟩
      simp only [decide_eq_true_eq, List.contains_cons, List.contains_nil,
        Bool.or_false, List.elem_iff] at hguard
      obtain ⟨hhex, -, hgate⟩ := hguard
      refine ⟨hmem, by simpa [List.elem_iff] using hhex, ?_⟩
      unfold Hex.gate_ok at hgate
      rw [if_pos hlen] at hgate
      cases hp : Hex.get_pincers start b with
      | none => rw [hp] at hgate; exact absurd hgate (by simp)
      | some pq =>
        obtain ⟨p, q⟩ := pq
        rw [hp] at hgate
        exact ⟨p, q, rfl, by simpa using hgate⟩
    · rintro ⟨hmem, hhex, p, q, hp, hne⟩
      refine ⟨hmem, ?_⟩
      simp only [decide_eq_true_eq, List.contains_cons, List.contains_nil,
        Bool.or_false, List.elem_iff]
      refine ⟨by simpa [List.elem_iff] using hhex, ?_, ?_⟩
      · simpa using (mem_neighbors_ne hmem)
      · unfold Hex.gate_ok
        rw [if_pos hlen, hp]
        simpa using hne
  refine ⟨hmain, fun p q hp heq hmem => ?_⟩
  obtain ⟨-, -, p', q', hp', hne'⟩ := hmain.mp hmem
  rw [hp] at hp'
  obtain ⟨rfl, rfl⟩ : p = p' ∧ q = q' := by
    have := Option.some.inj hp'
    exact ⟨congrArg Prod.fst this, congrArg Prod.snd this⟩
  exact hne' heq

/-- A loop step either switches to the new turn with its score or keeps
the accumulator. -/
theorem select_step_cases (g : GameState) (bt : Turn × Int) (t : Turn) :
    select_step g bt t = (t, score_turn g t) ∨ select_step g bt t = bt := by
  unfold select_step
  dsimp only
  split
  · exact Or.inl rfl
  · exact Or.inr rfl

theorem select_step_score (g : GameState) (bt : Turn × Int) (t : Turn)
    (hbt : bt.2 = score_turn g bt.1) :
    (select_step g bt t).2 = score_turn g (select_step g bt t).1 := by
  rcases select_step_cases g bt t with h | h <;> rw [h]
  exact hbt

theorem select_step_black (g : GameState) (bt : Turn × Int) (t : Turn)
    (hpl : g.current_player = .Black) :
    bt.2 ≤ (select_step g bt t).2 ∧ score_turn g t ≤ (select_step g bt t).2 := by
  unfold select_step
  dsimp only
  rw [hpl]
  split
  · next h => simp only [decide_eq_true_eq] at h; exact ⟨le_of_lt h, le_refl _⟩
  · next h => simp only [decide_eq_true_eq, not_lt] at h; exact ⟨le_refl _, h⟩

theorem select_step_white (g : GameState) (bt : Turn × Int) (t : Turn)
    (hpl : g.current_player = .White) :
    (select_step g bt t).2 ≤ bt.2 ∧ (select_step g bt t).2 ≤ score_turn g t := by
  unfold select_step
  dsimp only
  rw [hpl]
  split
  · next h => simp only [decide_eq_true_eq] at h; exact ⟨le_of_lt h, le_refl _⟩
  · next h => simp only [decide_eq_true_eq, not_lt] at h; exact ⟨le_refl _, h⟩

/-- The whole loop returns a candidate (or the seed) carrying its own
score, which bounds every candidate's score from the right side for the
player to move. -/
theorem select_fold_spec (g : GameState) (rest : List Turn) :
    ∀ bt : Turn × Int, bt.2 = score_turn g bt.1 →
      ((rest.foldl (select_step g) bt).1 = bt.1
        ∨ (rest.foldl (select_step g) bt).1 ∈ rest) ∧
      (rest.foldl (select_step g) bt).2
        = score_turn g (rest.foldl (select_step g) bt).1 ∧
      (g.current_player = .Black →
        bt.2 ≤ (rest.foldl (select_step g) bt).2 ∧
        ∀ t ∈ rest, score_turn g t ≤ (rest.foldl (select_step g) bt).2) ∧
      (g.current_player = .White →
        (rest.foldl (select_step g) bt).2 ≤ bt.2 ∧
        ∀ t ∈ rest, (rest.foldl (select_step g) bt).2 ≤ score_turn g t) := by
  induction rest with
  | nil =>
    intro bt hbt
    exact ⟨Or.inl rfl, hbt, fun _ => ⟨le_refl _, by simp⟩,
      fun _ => ⟨le_refl _, by simp⟩⟩
  | cons t ts ih =>
    intro bt hbt
    rw [List.foldl_cons]
    obtain ⟨hmem, hscore, hblack, hwhite⟩ :=
      ih (select_step g bt t) (select_step_score g bt t hbt)
    refine ⟨?_, hscore, fun hpl => ?_, fun hpl => ?_⟩
    · rcases hmem with h | h
      · rcases select_step_cases g bt t with hc | hc <;> rw [hc] at h ⊢
        · exact Or.inr (by rw [h]; exact List.mem_cons_self t ts)
        · exact Or.inl h
      · exact Or.inr (List.mem_cons_of_mem t h)
    · obtain ⟨h1, h2⟩ := select_step_black g bt t hpl
      obtain ⟨h3, h4⟩ := hblack hpl
      refine ⟨le_trans h1 h3, fun u hu => ?_⟩
      rcases List.mem_cons.mp hu with rfl | hu
      · exact le_trans h2 h3
      · exact h4 u hu
    · obtain ⟨h1, h2⟩ := select_step_white g bt t hpl
      obtain ⟨h3, h4⟩ := hwhite hpl
      refine ⟨le_trans h3 h1, fun u hu => ?_⟩
      rcases List.mem_cons.mp hu with rfl | hu
      · exact le_trans h3 h2
      · exact h4 u hu

/-- C8 amended: on a non-empty candidate list, the best-candidate loop
returns a candidate attaining the maximal score when Black is to move
(minimal when White); `select_action` takes the uniform random fallback
exactly when that best score is zero, and otherwise returns the best
candidate. -/
theorem select_action_best (g : GameState) (first : Turn) (rest : List Turn) :
    (select_action_fold g first rest).1 ∈ first :: rest ∧
    score_turn g (select_action_fold g first rest).1
      = (select_action_fold g first rest).2 ∧
    (g.current_player = .Black → ∀ t ∈ first :: rest,
      score_turn g t ≤ (select_action_fold g first rest).2) ∧
    (g.current_player = .White → ∀ t ∈ first :: rest,
      (select_action_fold g first rest).2 ≤ score_turn g t) ∧
    (select_action_det g (first :: rest) = none ↔
      (select_action_fold g first rest).2 = 0) ∧
    ((select_action_fold g first rest).2 ≠ 0 →
      select_action_det g (first :: rest)
        = some (select_action_fold g first rest).1) := by
  obtain ⟨hmem, hscore, hblack, hwhite⟩ :=
    select_fold_spec g rest (first, score_turn g first) rfl
  have hdet : select_action_det g (first :: rest) =
      if (select_action_fold g first rest).2 = 0 then none
      else some (select_action_fold g first rest).1 := rfl
  refine ⟨?_, hscore.symm, fun hpl t ht => ?_, fun hpl t ht => ?_, ?_, fun h0 => ?_⟩
  · rcases hmem with h | h
    · exact h ▸ List.mem_cons_self first rest
    · exact List.mem_cons_of_mem first h
  · rcases List.mem_cons.mp ht with rfl | ht
    · exact (hblack hpl).1
    · exact (hblack hpl).2 t ht
  · rcases List.mem_cons.mp ht with rfl | ht
    · exact (hwhite hpl).1
    · exact (hwhite hpl).2 t ht
  · rw [hdet]
    by_cases h0 : (select_action_fold g first rest).2 = 0
    · simp [h0]
    · simp [h0]
  · rw [hdet, if_neg h0]

/-- Witness for C8: in `rollout_state` with the single candidate
`rollout_move_away` (score `-1 ≠ 0`), the fallback does not fire and the
deterministic best candidate comes back. -/
theorem select_action_best_witness :
    rollout_state.current_player = .Black ∧
    select_action_det rollout_state [rollout_move_away] = some rollout_move_away := by
  constructor
  · rfl
  · have h := (select_action_best rollout_state rollout_move_away []).2.2.2.2.2
    have hne : (select_action_fold rollout_state rollout_move_away []).2 ≠ 0 := by
      decide
    have hfst : (select_action_fold rollout_state rollout_move_away []).1
        = rollout_move_away := rfl
    rw [← hfst]
    exact h hne

/-- Witness for C3 (`barriers ≠ []` discharged on a concrete board): with
the single barrier `ne(ORIGIN)`, the step east from the origin is taken
because exactly one of its pincers (`ne`, `se`) is a barrier. -/
theorem pathfind_gate_witness :
    ([ORIGIN.hexNE] : List Hex) ≠ [] ∧
    ORIGIN.hexE ∈ Hex.pathfind ORIGIN [ORIGIN.hexE] [ORIGIN.hexNE] (some 1) := by
  refine ⟨by simp, ?_⟩
  exact (pathfind_gate ORIGIN ORIGIN.hexE [ORIGIN.hexE] [ORIGIN.hexNE]
    (by simp)).1.mpr ⟨by decide, by decide, ORIGIN.hexNE, ORIGIN.hexSE,
      by decide, by decide⟩

section MctsInvariant

variable {σ α π : Type} [DecidableEq α] [DecidableEq π]

set_option linter.unusedSectionVars false

theorem backupGo_length (w : Nat) : ∀ (f : Nat) (a : List (StatsNode σ α))
    (ov : Option Nat), (backupGo w f a ov).length = a.length := by
  intro f
  induction f with
  | zero => intro a ov; rfl
  | succ f ih =>
    intro a ov
    cases ov with
    | none => rfl
    | some v =>
      simp only [backupGo]
      cases hv : a[v]? with
      | none => rfl
      | some nd => rw [ih, List.length_set]

/-- Backing up never changes a node's children and never decreases its
visit count. -/
theorem backupGo_get (w : Nat) : ∀ (f : Nat) (a : List (StatsNode σ α))
    (ov : Option Nat) (i : Nat) (nd' : StatsNode σ α),
    (backupGo w f a ov)[i]? = some nd' →
    ∃ nd, a[i]? = some nd ∧ nd'.children = nd.children
      ∧ nd.n_visits ≤ nd'.n_visits := by
  intro f
  induction f with
  | zero => intro a ov i nd' h; exact ⟨nd', h, rfl, le_refl _⟩
  | succ f ih =>
    intro a ov i nd' h
    cases ov with
    | none => exact ⟨nd', h, rfl, le_refl _⟩
    | some v =>
      simp only [backupGo] at h
      cases hv : a[v]? with
      | none => rw [hv] at h; exact ⟨nd', h, rfl, le_refl _⟩
      | some nd =>
        rw [hv] at h
        obtain ⟨nd₁, h₁, hch, hvis⟩ := ih _ _ i nd' h
        by_cases hiv : i = v
        · subst hiv
          have hlt : i < a.length := (List.getElem?_eq_some.mp hv).1
          rw [List.getElem?_set_self hlt] at h₁
          obtain rfl : nd.update w = nd₁ := by injection h₁
          exact ⟨nd, hv, by simpa [StatsNode.update] using hch,
            le_trans (Nat.le_succ _) hvis⟩
        · rw [List.getElem?_set_ne (fun he => hiv he.symm)] at h₁
          exact ⟨nd₁, h₁, hch, hvis⟩

/-- The very first node of a backup walk ends with at least one visit. -/
theorem backupGo_start (w f : Nat) (a : List (StatsNode σ α)) (v : Nat)
    (nd : StatsNode σ α) (hv : a[v]? = some nd) :
    ∀ nd', (backupGo w (f + 1) a (some v))[v]? = some nd' →
      1 ≤ nd'.n_visits := by
  intro nd' h
  simp only [backupGo] at h
  rw [hv] at h
  obtain ⟨nd₁, h₁, -, hvis⟩ := backupGo_get w f _ _ v nd' h
  have hlt : v < a.length := (List.getElem?_eq_some.mp hv).1
  rw [List.getElem?_set_self hlt] at h₁
  obtain rfl : nd.update w = nd₁ := by injection h₁
  exact le_trans (by simp [StatsNode.update]) hvis

theorem expandArena_snd (host : MCHost σ α π) (a : List (StatsNode σ α))
    (u : Nat) (v : StatsNode σ α) (hu : a[u]? = some v) :
    (expandArena host a u).2 = a.length := by
  unfold expandArena
  rw [hu]

theorem expandArena_length (host : MCHost σ α π) (a : List (StatsNode σ α))
    (u : Nat) (v : StatsNode σ α) (hu : a[u]? = some v) :
    (expandArena host a u).1.length = a.length + 1 := by
  unfold expandArena
  rw [hu]
  dsimp only
  rw [List.length_append, List.length_set]
  rfl

/-- What each index of the expanded arena holds. -/
theorem expandArena_get (host : MCHost σ α π) (a : List (StatsNode σ α))
    (u : Nat) (v : StatsNode σ α) (hu : a[u]? = some v) (i : Nat) :
    (expandArena host a u).1[i]? =
      if i = u then
        some { v with
          unexplored_actions := v.unexplored_actions.filter
            (fun x => x ≠ host.selectAction v.game v.unexplored_actions)
          children := v.children ++ [a.length] }
      else if i = a.length then
        some (StatsNode.newNode host a.length
          (host.applyAction v.game (host.selectAction v.game v.unexplored_actions))
          (some u))
      else a[i]? := by
  have hlt : u < a.length := (List.getElem?_eq_some.mp hu).1
  unfold expandArena
  rw [hu]
  dsimp only
  by_cases hiu : i = u
  · subst hiu
    rw [if_pos rfl, List.getElem?_append_left (by rw [List.length_set]; exact hlt),
      List.getElem?_set_self hlt]
  · rw [if_neg hiu]
    by_cases hil : i = a.length
    · subst hil
      rw [if_pos rfl]
      have h := List.getElem?_concat_length
        (a.set u { v with
          unexplored_actions := v.unexplored_actions.filter
            (fun x => x ≠ host.selectAction v.game v.unexplored_actions)
          children := v.children ++ [a.length] })
        (StatsNode.newNode host a.length
          (host.applyAction v.game (host.selectAction v.game v.unexplored_actions))
          (some u))
      rw [List.length_set] at h
      exact h
    · rw [if_neg hil]
      by_cases hlen : i < a.length
      · rw [List.getElem?_append_left (by rw [List.length_set]; exact hlen),
          List.getElem?_set_ne (fun he => hiu he.symm)]
      · have h1 : a.length ≤ i := le_of_not_lt hlen
        rw [List.getElem?_eq_none_iff.mpr h1]
        apply List.getElem?_eq_none_iff.mpr
        rw [List.length_append, List.length_set]
        have h2 : i ≠ a.length := hil
        simp only [List.length_cons, List.length_nil]
        omega

/-- A fold that at each step either keeps its accumulator's pick or picks
the current element returns the seed pick or a list element. -/
theorem foldl_pick_mem {β : Type} (f : Nat × β → Nat → Nat × β)
    (hsel : ∀ acc c, (f acc c).1 = acc.1 ∨ (f acc c).1 = c) :
    ∀ (l : List Nat) (init : Nat × β),
      (l.foldl f init).1 = init.1 ∨ (l.foldl f init).1 ∈ l := by
  intro l
  induction l with
  | nil => intro init; exact Or.inl rfl
  | cons c cs ih =>
    intro init
    rw [List.foldl_cons]
    rcases ih (f init c) with h | h
    · rcases hsel init c with h2 | h2
      · exact Or.inl (h.trans h2)
      · exact Or.inr (by rw [h, h2]; exact List.mem_cons_self c cs)
    · exact Or.inr (List.mem_cons_of_mem c h)

/-- `best_child` stays put (the Rust panic cases) or returns one of the
parent's children. -/
theorem best_child_cases (host : MCHost σ α π)
    (ucb : List (StatsNode σ α) → Nat → Nat → ℚ) (maxi : π)
    (a : List (StatsNode σ α)) (p : Nat) :
    best_child host ucb maxi a p = p ∨
    ∃ nd, a[p]? = some nd ∧ best_child host ucb maxi a p ∈ nd.children := by
  unfold best_child
  cases h : a[p]? with
  | none => exact Or.inl rfl
  | some nd =>
    dsimp only
    cases hc : nd.children with
    | nil => exact Or.inl rfl
    | cons first rest =>
      refine Or.inr ⟨nd, rfl, ?_⟩
      rw [hc]
      dsimp only
      have key := foldl_pick_mem
        (fun (best : Nat × ℚ) child_i =>
          let u := ucb a p child_i
          let is_better : Bool :=
            if is_maxi_move host maxi a p then decide (u > best.2)
            else decide (u < best.2)
          if is_better then (child_i, u) else best)
        (by
          intro acc c
          dsimp only
          split <;> split
          · exact Or.inr rfl
          · exact Or.inl rfl
          · exact Or.inr rfl
          · exact Or.inl rfl)
        rest (first, ucb a p first)
      rcases key with hk | hk
      · rw [hk]; exact List.mem_cons_self first rest
      · exact List.mem_cons_of_mem first hk

/-- The selection loop either walks to an in-range node without touching
the arena, or expands some in-range node. -/
theorem selectGo_spec (host : MCHost σ α π)
    (ucb : List (StatsNode σ α) → Nat → Nat → ℚ) (maxi : π)
    (a : List (StatsNode σ α)) (hInv : ArenaInv a) :
    ∀ (fuel v : Nat), v < a.length →
      (∃ v', selectGo host ucb maxi a fuel v = (a, v') ∧ v' < a.length) ∨
      (∃ u, u < a.length ∧
        selectGo host ucb maxi a fuel v = expandArena host a u) := by
  intro fuel
  induction fuel with
  | zero => intro v hv; exact Or.inl ⟨v, rfl, hv⟩
  | succ fuel ih =>
    intro v hv
    simp only [selectGo]
    cases hnd : a[v]? with
    | none =>
      have := List.getElem?_eq_none_iff.mp hnd
      omega
    | some nd =>
      dsimp only
      by_cases hterm : (host.terminalValue nd.game maxi).isSome = true
      · rw [if_pos hterm]
        exact Or.inl ⟨v, rfl, hv⟩
      · rw [if_neg hterm]
        by_cases hexp : nd.is_expanded = true
        · rw [if_neg (by simp [hexp])]
          apply ih
          rcases best_child_cases host ucb maxi a v with h | ⟨nd₂, h₂, hmem⟩
          · rw [h]; exact hv
          · exact (hInv.2 nd₂ (List.getElem?_mem h₂) _ hmem).1
        · rw [if_pos (by simp [hexp])]
          exact Or.inr ⟨v, hv, rfl⟩

/-- Backing up preserves the arena invariant. -/
theorem ArenaInv_backup (w f : Nat) (a : List (StatsNode σ α))
    (ov : Option Nat) (h : ArenaInv a) : ArenaInv (backupGo w f a ov) := by
  obtain ⟨hne, hinv⟩ := h
  constructor
  · intro hcon
    have hlen := backupGo_length w f a ov
    rw [hcon] at hlen
    exact hne (List.eq_nil_of_length_eq_zero hlen.symm)
  · intro nd' hmem' c hc
    obtain ⟨i, hlt', hi⟩ := List.mem_iff_getElem.mp hmem'
    have hi? : (backupGo w f a ov)[i]? = some nd' := by
      rw [List.getElem?_eq_getElem hlt', hi]
    obtain ⟨nd, hnd, hch, -⟩ := backupGo_get w f a ov i nd' hi?
    have hio := hinv nd (List.getElem?_mem hnd) c (hch ▸ hc)
    refine ⟨by rw [backupGo_length]; exact hio.1, fun cd' hcd' => ?_⟩
    obtain ⟨cd, hcd, -, hvisc⟩ := backupGo_get w f a ov c cd' hcd'
    exact le_trans (hio.2 cd hcd) hvisc

/-- Expanding a node and immediately backing up from the fresh child (the
shape of every expanding iteration) preserves the arena invariant: the
new child is the start of the backup walk, so it ends the iteration with
at least one visit. -/
theorem ArenaInv_expand_backup (host : MCHost σ α π) (w : Nat)
    (a : List (StatsNode σ α)) (u : Nat) (vu : StatsNode σ α)
    (hvu : a[u]? = some vu) (hInv : ArenaInv a) :
    ArenaInv (backupGo w (a.length + 1) (expandArena host a u).1
      (some a.length)) := by
  obtain ⟨hne, hinv⟩ := hInv
  have hlen1 : (expandArena host a u).1.length = a.length + 1 :=
    expandArena_length host a u vu hvu
  have hget := expandArena_get host a u vu hvu
  constructor
  · intro hcon
    have hl := backupGo_length w (a.length + 1) (expandArena host a u).1
      (some a.length)
    rw [hcon, hlen1] at hl
    exact absurd hl.symm (by simp)
  · intro nd' hmem' c hc
    obtain ⟨i, hlt', hi⟩ := List.mem_iff_getElem.mp hmem'
    have hi? : (backupGo w (a.length + 1) (expandArena host a u).1
        (some a.length))[i]? = some nd' := by
      rw [List.getElem?_eq_getElem hlt', hi]
    obtain ⟨nd1, hnd1, hch, -⟩ := backupGo_get w (a.length + 1) _ _ i nd' hi?
    rw [hch] at hc
    rw [hget i] at hnd1
    split_ifs at hnd1 with hiu hil
    · -- the expanded parent
      obtain rfl : _ = nd1 := by injection hnd1
      rcases List.mem_append.mp hc with hcold | hcnew
      · have hio := hinv vu (List.getElem?_mem hvu) c hcold
        refine ⟨by rw [backupGo_length, hlen1]; omega, fun cd' hcd' => ?_⟩
        obtain ⟨cd1, hcd1, -, hvisc⟩ :=
          backupGo_get w (a.length + 1) _ _ c cd' hcd'
        rw [hget c] at hcd1
        split_ifs at hcd1 with hcu hcl
        · subst hcu
          obtain rfl : _ = cd1 := by injection hcd1
          exact le_trans (hio.2 vu hvu) hvisc
        · exact absurd hcl (by omega)
        · exact le_trans (hio.2 cd1 hcd1) hvisc
      · obtain rfl : c = a.length := by simpa using hcnew
        refine ⟨by rw [backupGo_length, hlen1]; omega, fun cd' hcd' => ?_⟩
        have hstart : (expandArena host a u).1[a.length]?
            = some (StatsNode.newNode host a.length
              (host.applyAction vu.game
                (host.selectAction vu.game vu.unexplored_actions))
              (some u)) := by
          rw [hget a.length,
            if_neg (by have := (List.getElem?_eq_some.mp hvu).1; omega),
            if_pos rfl]
        exact backupGo_start w a.length _ a.length _ hstart cd' hcd'
    · -- the fresh child: no children yet
      obtain rfl : _ = nd1 := by injection hnd1
      simp [StatsNode.newNode] at hc
    · -- untouched nodes
      have hio := hinv nd1 (List.getElem?_mem hnd1) c hc
      refine ⟨by rw [backupGo_length, hlen1]; omega, fun cd' hcd' => ?_⟩
      obtain ⟨cd1, hcd1, -, hvisc⟩ :=
        backupGo_get w (a.length + 1) _ _ c cd' hcd'
      rw [hget c] at hcd1
      split_ifs at hcd1 with hcu hcl
      · subst hcu
        obtain rfl : _ = cd1 := by injection hcd1
        exact le_trans (hio.2 vu hvu) hvisc
      · exact absurd hcl (by omega)
      · exact le_trans (hio.2 cd1 hcd1) hvisc

/-- One whole `find_best_action` iteration preserves the arena
invariant. -/
theorem ArenaInv_iteration (host : MCHost σ α π)
    (ucb : List (StatsNode σ α) → Nat → Nat → ℚ) (maxi : π) (md : Nat)
    (a : List (StatsNode σ α)) (h : ArenaInv a) :
    ArenaInv (mctsIteration host ucb maxi md a) := by
  obtain ⟨hne, hinv⟩ := h
  have hroot : 0 < a.length := List.length_pos.mpr hne
  unfold mctsIteration
  rcases selectGo_spec host ucb maxi a ⟨hne, hinv⟩ (a.length + 1) 0 hroot with
    ⟨v', heq, hv'⟩ | ⟨u, hu, heq⟩
  · rw [heq]
    exact ArenaInv_backup _ _ a (some v') ⟨hne, hinv⟩
  · rw [heq]
    dsimp only
    obtain ⟨vu, hvu⟩ : ∃ vu, a[u]? = some vu := by
      cases hx : a[u]? with
      | none => have := List.getElem?_eq_none_iff.mp hx; omega
      | some vu => exact ⟨vu, rfl⟩
    rw [expandArena_snd host a u vu hvu,
      expandArena_length host a u vu hvu]
    exact ArenaInv_expand_backup host _ a u vu hvu ⟨hne, hinv⟩

/-- C10: on every arena built by `find_best_action` iterations, every
index stored in any node's child list points at a node with at least one
visit, so the UCB1 exploitation term `total_wins / n_visits` evaluated
during selection never divides zero by zero. -/
theorem mcts_children_always_visited (host : MCHost σ α π)
    (ucb : List (StatsNode σ α) → Nat → Nat → ℚ) (maxi : π) (md n : Nat)
    (g : σ) :
    ∀ nd ∈ mctsLoop host ucb maxi md g n, ∀ c ∈ nd.children,
      ∀ cd, (mctsLoop host ucb maxi md g n)[c]? = some cd →
        1 ≤ cd.n_visits ∧ (cd.n_visits : ℚ) ≠ 0 ∧
        exploitation (mctsLoop host ucb maxi md g n) c
          = (cd.total_wins : ℚ) / (cd.n_visits : ℚ) := by
  have hinv : ArenaInv (mctsLoop host ucb maxi md g n) := by
    induction n with
    | zero =>
      refine ⟨by simp [mctsLoop, initialArena], ?_⟩
      intro nd hnd c hc
      simp only [mctsLoop, initialArena, List.mem_singleton] at hnd
      rw [hnd] at hc
      simp [StatsNode.newNode] at hc
    | succ n ih => exact ArenaInv_iteration host ucb maxi md _ ih
  intro nd hnd c hc cd hcd
  have h1 := (hinv.2 nd hnd c hc).2 cd hcd
  refine ⟨h1, ?_, ?_⟩
  · have : (0 : ℚ) < (cd.n_visits : ℚ) := by exact_mod_cast h1
    exact ne_of_gt this
  · unfold exploitation
    rw [hcd]

end MctsInvariant

/-- The piece token always starts with the owner's color letter. -/
theorem format_head (p : Piece) :
    ∃ cs, format_piece p = p.owner.letter :: cs := by
  unfold format_piece
  split
  · exact ⟨_, rfl⟩
  · exact ⟨_, rfl⟩

/-- Piece-token round trip: parsing a formatted piece token recovers the
piece, for the ids the program actually uses. -/
theorem parse_format_piece (p : Piece) (hok : piece_ok p) :
    parse_piece_string (format_piece p) = some p := by
  obtain ⟨id, bug, owner⟩ := p
  obtain ⟨h1, h9, hu⟩ := hok
  cases owner <;> cases bug <;> simp only [Bug.is_unique] at hu <;>
    interval_cases id <;>
      first
        | decide
        | (exact absurd (hu trivial) (by decide))

/-- A formatted piece token never contains a direction glyph. -/
theorem format_piece_no_dir (p : Piece) (hok : piece_ok p) :
    (format_piece p).any (fun c => c = '-' ∨ c = '/' ∨ c = '\\') = false := by
  obtain ⟨id, bug, owner⟩ := p
  obtain ⟨h1, h9, hu⟩ := hok
  cases owner <;> cases bug <;> interval_cases id <;> decide

/-- A formatted piece token is never the `pass` keyword. -/
theorem format_ne_pass (p : Piece) : format_piece p ≠ ['p', 'a', 's', 's'] := by
  obtain ⟨cs, hcs⟩ := format_head p
  rw [hcs]
  intro hcon
  cases ho : p.owner <;> rw [ho] at hcon <;> simp [Player.letter] at hcon

/-- With duplicate-free keys, every entry of an association list is what
lookup returns at its key. -/
theorem mem_lookup_of_nodup {α : Type} {m : List (Hex × α)}
    (hn : (keysA m).Nodup) {e : Hex × α} (he : e ∈ m) :
    lookupA m e.1 = some e.2 := by
  induction m with
  | nil => cases he
  | cons f fs ih =>
    simp only [keysA, List.map_cons, List.nodup_cons] at hn
    rcases List.mem_cons.mp he with rfl | he2
    · simp [lookupA]
    · have hne : f.1 ≠ e.1 := by
        intro hcon
        exact hn.1 (hcon ▸ List.mem_map_of_mem (fun x => x.1) he2)
      unfold lookupA
      rw [List.find?_cons_of_neg _ (by simp [hne])]
      exact ih hn.2 he2

theorem lookup_exists_entry {α : Type} {m : List (Hex × α)} {h : Hex} {v : α}
    (hl : lookupA m h = some v) : ∃ e ∈ m, e.1 = h ∧ e.2 = v := by
  unfold lookupA at hl
  cases hf : m.find? (fun e => e.1 == h) with
  | none => rw [hf] at hl; simp at hl
  | some e =>
    rw [hf] at hl
    simp only [Option.map_some'] at hl
    have hp := List.find?_some hf
    exact ⟨e, List.mem_of_find?_eq_some hf, by simpa using hp,
      by injection hl⟩

/-- The parser's search of the board by piece value finds the piece's
actual hex when board values are unique. -/
theorem find_value_eq {board : List (Hex × Piece)}
    (hn : (keysA board).Nodup)
    (huniq : ∀ h₁ h₂ p, lookupA board h₁ = some p →
      lookupA board h₂ = some p → h₁ = h₂)
    {h : Hex} {r : Piece} (hr : lookupA board h = some r) :
    (board.find? (fun e => e.2 == r)).map (fun e => e.1) = some h := by
  cases hf : board.find? (fun e => e.2 == r) with
  | none =>
    exfalso
    obtain ⟨e, hmem, -, he2⟩ := lookup_exists_entry hr
    have := List.find?_eq_none.mp hf e hmem
    simp [he2] at this
  | some e =>
    have hp := List.find?_some hf
    have hmem := List.mem_of_find?_eq_some hf
    have hle := mem_lookup_of_nodup hn hmem
    have he2 : e.2 = r := by simpa using hp
    rw [he2] at hle
    simp [huniq e.1 h r hle hr]

theorem first_occupied_neighbor_none {board : List (Hex × Piece)} {h : Hex}
    (hf : first_occupied_neighbor board h = none) :
    ∀ n ∈ Hex.neighbors_ring h, lookupA board n = none := by
  intro n hn
  unfold first_occupied_neighbor at hf
  rw [List.head?_eq_none_iff] at hf
  have := List.filterMap_eq_nil_iff.mp hf n hn
  cases hl : lookupA board n with
  | none => rfl
  | some q => rw [hl] at this; simp at this

/-- The formatter's reference piece really is a board piece adjacent to
the destination. -/
theorem first_occupied_neighbor_some {board : List (Hex × Piece)}
    {h n : Hex} {r : Piece}
    (hf : first_occupied_neighbor board h = some (n, r)) :
    n ∈ Hex.neighbors_ring h ∧ lookupA board n = some r := by
  unfold first_occupied_neighbor at hf
  have hmem := List.mem_of_mem_head? hf
  obtain ⟨a, ha, hfa⟩ := List.mem_filterMap.mp hmem
  cases hl : lookupA board a with
  | none => rw [hl] at hfa; simp at hfa
  | some q =>
    rw [hl] at hfa
    simp only [Option.map_some'] at hfa
    obtain ⟨rfl, rfl⟩ : a = n ∧ q = r := by
      have h1 := congrArg Prod.fst (Option.some.inj hfa)
      have h2 := congrArg Prod.snd (Option.some.inj hfa)
      exact ⟨h1, h2⟩
    exact ⟨ha, hl⟩

theorem hex_sub_add (h d : Hex) : h.sub (h.add d) = ORIGIN.sub d := by
  simp only [Hex.sub, Hex.add, ORIGIN, Hex.mk.injEq]
  omega

theorem hex_add_add (a b c : Hex) : (a.add b).add c = a.add (b.add c) := by
  simp only [Hex.add, Hex.mk.injEq]
  omega

theorem hex_add_cancel (a d e : Hex) (h : d.add e = ORIGIN) :
    (a.add d).add e = a := by
  rw [hex_add_add, h]
  obtain ⟨x, y, z⟩ := a
  simp [Hex.add, ORIGIN]

theorem board_any_of_lookup {board : List (Hex × Piece)} {p : Piece}
    {hx : Hex} (hl : lookupA board hx = some p) :
    board.any (fun e => e.2 == p) = true := by
  obtain ⟨e, hmem, -, he2⟩ := lookup_exists_entry hl
  rw [List.any_eq_true]
  exact ⟨e, hmem, by simp [he2]⟩

theorem board_not_any {board : List (Hex × Piece)} {p : Piece}
    (hn : (keysA board).Nodup)
    (h : ∀ hx q, lookupA board hx = some q → q ≠ p) :
    board.any (fun e => e.2 == p) = false := by
  rw [List.any_eq_false]
  intro e he
  have hle := mem_lookup_of_nodup hn he
  have hne := h e.1 e.2 hle
  simp [hne]

theorem hexE_hexW (h : Hex) : h.hexE.hexW = h := by
  unfold Hex.hexE Hex.hexW
  exact hex_add_cancel _ _ _ (by decide)

theorem hexNE_hexSW (h : Hex) : h.hexNE.hexSW = h := by
  unfold Hex.hexNE Hex.hexSW
  exact hex_add_cancel _ _ _ (by decide)

theorem hexSE_hexNW (h : Hex) : h.hexSE.hexNW = h := by
  unfold Hex.hexSE Hex.hexNW
  exact hex_add_cancel _ _ _ (by decide)

theorem hexW_hexE (h : Hex) : h.hexW.hexE = h := by
  unfold Hex.hexW Hex.hexE
  exact hex_add_cancel _ _ _ (by decide)

theorem hexSW_hexNE (h : Hex) : h.hexSW.hexNE = h := by
  unfold Hex.hexSW Hex.hexNE
  exact hex_add_cancel _ _ _ (by decide)

theorem hexNW_hexSE (h : Hex) : h.hexNW.hexSE = h := by
  unfold Hex.hexNW Hex.hexSE
  exact hex_add_cancel _ _ _ (by decide)

theorem location_token_hexE (h : Hex) (r : Piece) :
    location_token h h.hexE r = some ('-' :: format_piece r) := by
  simp only [location_token, Hex.hexE, hex_sub_add]
  rw [if_pos (by decide)]

theorem location_token_hexSE (h : Hex) (r : Piece) :
    location_token h h.hexSE r = some ('\\' :: format_piece r) := by
  simp only [location_token, Hex.hexSE, hex_sub_add]
  rw [if_neg (by decide), if_pos (by decide)]

theorem location_token_hexNE (h : Hex) (r : Piece) :
    location_token h h.hexNE r = some ('/' :: format_piece r) := by
  simp only [location_token, Hex.hexNE, hex_sub_add]
  rw [if_neg (by decide), if_neg (by decide), if_pos (by decide)]

theorem location_token_hexW (h : Hex) (r : Piece) :
    location_token h h.hexW r = some (format_piece r ++ ['-']) := by
  simp only [location_token, Hex.hexW, hex_sub_add]
  rw [if_neg (by decide), if_neg (by decide), if_neg (by decide),
    if_pos (by decide)]

theorem location_token_hexSW (h : Hex) (r : Piece) :
    location_token h h.hexSW r = some (format_piece r ++ ['/']) := by
  simp only [location_token, Hex.hexSW, hex_sub_add]
  rw [if_neg (by decide), if_neg (by decide), if_neg (by decide),
    if_neg (by decide), if_pos (by decide)]

theorem location_token_hexNW (h : Hex) (r : Piece) :
    location_token h h.hexNW r = some (format_piece r ++ ['\\']) := by
  simp only [location_token, Hex.hexNW, hex_sub_add]
  rw [if_neg (by decide), if_neg (by decide), if_neg (by decide),
    if_neg (by decide), if_neg (by decide), if_pos (by decide)]

theorem parse_location_dash_w {board : List (Hex × Piece)}
    (stack_map : List (Hex × List Piece)) {r : Piece} {n : Hex}
    (hpr : parse_piece_string (format_piece r) = some r)
    (hfind : (board.find? (fun e => e.2 == r)).map (fun e => e.1) = some n) :
    parse_location_token ('-' :: format_piece r) board stack_map
      = some n.hexW := by
  simp only [parse_location_token]
  rw [if_neg (by decide), hpr]
  simp only [Option.map_some']
  rw [hfind]

theorem parse_location_slash_w {board : List (Hex × Piece)}
    (stack_map : List (Hex × List Piece)) {r : Piece} {n : Hex}
    (hpr : parse_piece_string (format_piece r) = some r)
    (hfind : (board.find? (fun e => e.2 == r)).map (fun e => e.1) = some n) :
    parse_location_token ('/' :: format_piece r) board stack_map
      = some n.hexSW := by
  simp only [parse_location_token]
  rw [if_neg (by decide), hpr]
  simp only [Option.map_some']
  rw [hfind]

theorem parse_location_bslash_w {board : List (Hex × Piece)}
    (stack_map : List (Hex × List Piece)) {r : Piece} {n : Hex}
    (hpr : parse_piece_string (format_piece r) = some r)
    (hfind : (board.find? (fun e => e.2 == r)).map (fun e => e.1) = some n) :
    parse_location_token ('\\' :: format_piece r) board stack_map
      = some n.hexNW := by
  simp only [parse_location_token]
  rw [if_neg (by decide), hpr]
  simp only [Option.map_some']
  rw [hfind]

theorem parse_location_dash_e {board : List (Hex × Piece)}
    (stack_map : List (Hex × List Piece)) {r : Piece} {n : Hex}
    (hpr : parse_piece_string (format_piece r) = some r)
    (hfind : (board.find? (fun e => e.2 == r)).map (fun e => e.1) = some n) :
    parse_location_token (format_piece r ++ ['-']) board stack_map
      = some n.hexE := by
  obtain ⟨cs, hcs⟩ := format_head r
  have h_any : (r.owner.letter :: (cs ++ ['-'])).any
      (fun c => c = '-' ∨ c = '/' ∨ c = '\\') = true := by
    have h2 : ((r.owner.letter :: cs) ++ ['-']).any
        (fun c => c = '-' ∨ c = '/' ∨ c = '\\') = true := by
      rw [List.any_append]
      simp
    simp only [List.cons_append] at h2
    exact h2
  have h_last : (r.owner.letter :: (cs ++ ['-'])).getLast? = some '-' := by
    rw [← List.cons_append]
    exact List.getLast?_concat _
  have h_drop : (r.owner.letter :: (cs ++ ['-'])).dropLast
      = r.owner.letter :: cs := by
    rw [← List.cons_append]
    exact List.dropLast_concat
  rw [hcs, List.cons_append]
  simp only [parse_location_token]
  rw [if_pos (by cases ho : r.owner <;> simp [Player.letter]),
    if_pos h_any, h_last]
  simp only []
  rw [h_drop, ← hcs, hpr]
  simp only [Option.map_some']
  rw [hfind]

theorem parse_location_slash_e {board : List (Hex × Piece)}
    (stack_map : List (Hex × List Piece)) {r : Piece} {n : Hex}
    (hpr : parse_piece_string (format_piece r) = some r)
    (hfind : (board.find? (fun e => e.2 == r)).map (fun e => e.1) = some n) :
    parse_location_token (format_piece r ++ ['/']) board stack_map
      = some n.hexNE := by
  obtain ⟨cs, hcs⟩ := format_head r
  have h_any : (r.owner.letter :: (cs ++ ['/'])).any
      (fun c => c = '-' ∨ c = '/' ∨ c = '\\') = true := by
    have h2 : ((r.owner.letter :: cs) ++ ['/']).any
        (fun c => c = '-' ∨ c = '/' ∨ c = '\\') = true := by
      rw [List.any_append]
      simp
    simp only [List.cons_append] at h2
    exact h2
  have h_last : (r.owner.letter :: (cs ++ ['/'])).getLast? = some '/' := by
    rw [← List.cons_append]
    exact List.getLast?_concat _
  have h_drop : (r.owner.letter :: (cs ++ ['/'])).dropLast
      = r.owner.letter :: cs := by
    rw [← List.cons_append]
    exact List.dropLast_concat
  rw [hcs, List.cons_append]
  simp only [parse_location_token]
  rw [if_pos (by cases ho : r.owner <;> simp [Player.letter]),
    if_pos h_any, h_last]
  simp only []
  rw [h_drop, ← hcs, hpr]
  simp only [Option.map_some']
  rw [hfind]

theorem parse_location_bslash_e {board : List (Hex × Piece)}
    (stack_map : List (Hex × List Piece)) {r : Piece} {n : Hex}
    (hpr : parse_piece_string (format_piece r) = some r)
    (hfind : (board.find? (fun e => e.2 == r)).map (fun e => e.1) = some n) :
    parse_location_token (format_piece r ++ ['\\']) board stack_map
      = some n.hexSE := by
  obtain ⟨cs, hcs⟩ := format_head r
  have h_any : (r.owner.letter :: (cs ++ ['\\'])).any
      (fun c => c = '-' ∨ c = '/' ∨ c = '\\') = true := by
    have h2 : ((r.owner.letter :: cs) ++ ['\\']).any
        (fun c => c = '-' ∨ c = '/' ∨ c = '\\') = true := by
      rw [List.any_append]
      simp
    simp only [List.cons_append] at h2
    exact h2
  have h_last : (r.owner.letter :: (cs ++ ['\\'])).getLast? = some '\\' := by
    rw [← List.cons_append]
    exact List.getLast?_concat _
  have h_drop : (r.owner.letter :: (cs ++ ['\\'])).dropLast
      = r.owner.letter :: cs := by
    rw [← List.cons_append]
    exact List.dropLast_concat
  rw [hcs, List.cons_append]
  simp only [parse_location_token]
  rw [if_pos (by cases ho : r.owner <;> simp [Player.letter]),
    if_pos h_any, h_last]
  simp only []
  rw [h_drop, ← hcs, hpr]
  simp only [Option.map_some']
  rw [hfind]

/-- The destination round trip through a neighbor reference: for every
occupied neighbor of the destination, the formatter's direction token
parses back to the destination hex. -/
theorem location_roundtrip {board : List (Hex × Piece)}
    (stack_map : List (Hex × List Piece))
    (hn : (keysA board).Nodup)
    (huniq : ∀ h₁ h₂ p, lookupA board h₁ = some p →
      lookupA board h₂ = some p → h₁ = h₂)
    {h n : Hex} {r : Piece} (hok : piece_ok r)
    (hmem : n ∈ Hex.neighbors_ring h) (hr : lookupA board n = some r) :
    ∃ tok, location_token h n r = some tok ∧
      parse_location_token tok board stack_map = some h := by
  have hpr := parse_format_piece r hok
  have hfind := find_value_eq hn huniq hr
  simp only [Hex.neighbors_ring, List.mem_cons, List.not_mem_nil,
    or_false] at hmem
  rcases hmem with rfl | rfl | rfl | rfl | rfl | rfl
  · exact ⟨_, location_token_hexNE h r, by
      rw [parse_location_slash_w stack_map hpr hfind, hexNE_hexSW]⟩
  · exact ⟨_, location_token_hexE h r, by
      rw [parse_location_dash_w stack_map hpr hfind, hexE_hexW]⟩
  · exact ⟨_, location_token_hexSE h r, by
      rw [parse_location_bslash_w stack_map hpr hfind, hexSE_hexNW]⟩
  · exact ⟨_, location_token_hexSW h r, by
      rw [parse_location_slash_e stack_map hpr hfind, hexSW_hexNE]⟩
  · exact ⟨_, location_token_hexW h r, by
      rw [parse_location_dash_e stack_map hpr hfind, hexW_hexE]⟩
  · exact ⟨_, location_token_hexNW h r, by
      rw [parse_location_bslash_e stack_map hpr hfind, hexNW_hexSE]⟩

theorem is_adj_of_mem_ring {h n : Hex} (hm : n ∈ Hex.neighbors_ring h) :
    h.is_adj n = true := by
  simp only [Hex.neighbors_ring, List.mem_cons, List.not_mem_nil,
    or_false] at hm
  rcases hm with rfl | rfl | rfl | rfl | rfl | rfl <;>
    simp [Hex.is_adj, Hex.neighbors]

theorem location_token_isSome {h n : Hex} (r : Piece)
    (hm : n ∈ Hex.neighbors_ring h) :
    ∃ tok, location_token h n r = some tok := by
  simp only [Hex.neighbors_ring, List.mem_cons, List.not_mem_nil,
    or_false] at hm
  rcases hm with rfl | rfl | rfl | rfl | rfl | rfl
  · exact ⟨_, location_token_hexNE h r⟩
  · exact ⟨_, location_token_hexE h r⟩
  · exact ⟨_, location_token_hexSE h r⟩
  · exact ⟨_, location_token_hexSW h r⟩
  · exact ⟨_, location_token_hexW h r⟩
  · exact ⟨_, location_token_hexNW h r⟩

/-- A location token that is just a piece token (no direction glyph)
parses to the hex of that piece on the board. -/
theorem parse_location_plain {board : List (Hex × Piece)}
    (stack_map : List (Hex × List Piece)) {r : Piece} {n : Hex}
    (hok : piece_ok r)
    (hpr : parse_piece_string (format_piece r) = some r)
    (hfind : (board.find? (fun e => e.2 == r)).map (fun e => e.1) = some n) :
    parse_location_token (format_piece r) board stack_map = some n := by
  have hany := format_piece_no_dir r hok
  obtain ⟨cs, hcs⟩ := format_head r
  rw [hcs] at hany hpr ⊢
  simp only [parse_location_token]
  rw [if_pos (by cases ho : r.owner <;> simp [Player.letter]),
    if_neg (by rw [hany]; decide), hpr]
  simp only [Option.map_some']
  rw [hfind]

theorem lookup_mem {α : Type} {m : List (Hex × α)} {h : Hex} {v : α}
    (hl : lookupA m h = some v) : (h, v) ∈ m := by
  obtain ⟨e, he, he1, he2⟩ := lookup_exists_entry hl
  obtain ⟨e1, e2⟩ := e
  cases he1
  cases he2
  exact he

/-- `parse_move_string` on a one-token move string places the piece at the
origin. -/
theorem parse_move_one {board : List (Hex × Piece)}
    (stack_map : List (Hex × List Piece)) {target : Piece}
    (hprt : parse_piece_string (format_piece target) = some target) :
    parse_move_toks [format_piece target] board stack_map
      = some (Turn.Place target ORIGIN) := by
  have hne : [format_piece target] ≠ [['p', 'a', 's', 's']] := by
    simpa using format_ne_pass target
  simp only [parse_move_toks]
  rw [if_neg hne, hprt]

/-- `parse_move_string` on a two-token move string: decode the piece,
resolve the destination, and classify as move or placement by whether the
piece is already on the board. -/
theorem parse_move_two {board : List (Hex × Piece)}
    (stack_map : List (Hex × List Piece)) {target : Piece}
    {dest_tok : List Char} {hexd : Hex}
    (hprt : parse_piece_string (format_piece target) = some target)
    (hdt : parse_location_token dest_tok board stack_map = some hexd) :
    parse_move_toks [format_piece target, dest_tok] board stack_map
      = if board.any (fun e => e.2 == target) then some (Turn.Move target hexd)
        else some (Turn.Place target hexd) := by
  have hne : [format_piece target, dest_tok] ≠ [['p', 'a', 's', 's']] := by
    simp
  simp only [parse_move_toks]
  rw [if_neg hne, hprt]
  simp only []
  rw [hdt]

/-- C5: Move-notation round trip.  For a turn that is well-formed for the
prior state (a pass; a placement of a piece that is not on the board; or a
move of a piece that is on the board - where an unoccupied destination
either has some occupied neighbor or is the origin placement on an empty
board), parsing the formatted move tokens of the turn against the prior
state's board and stacks yields the turn again.  Moreover the formatter
references the piece on top of the destination hex when that hex is
occupied, and otherwise a piece on the board adjacent to the
destination. -/
theorem turn_string_roundtrip (game : GameState) (t : Turn)
    (Hnodup : (keysA game.board).Nodup)
    (Huniq : ∀ h₁ h₂ p, lookupA game.board h₁ = some p →
      lookupA game.board h₂ = some p → h₁ = h₂)
    (Hok : ∀ hx p, lookupA game.board hx = some p → piece_ok p)
    (Ht : t = Turn.Pass ∨
      ∃ target hexd,
        ((t = Turn.Place target hexd ∧
            game.board.any (fun e => e.2 == target) = false) ∨
          (t = Turn.Move target hexd ∧
            game.board.any (fun e => e.2 == target) = true)) ∧
        piece_ok target ∧
        (lookupA game.board hexd = none →
          (game.board = [] ∧ hexd = ORIGIN) ∨
          ∃ n r, first_occupied_neighbor game.board hexd = some (n, r))) :
    parse_move_toks (get_turn_string_toks t game) game.board
        game.piece_stacks = some t ∧
      ∀ target hexd,
        t = Turn.Place target hexd ∨ t = Turn.Move target hexd →
        (∀ sp, lookupA game.board hexd = some sp →
          get_turn_string_toks t game
            = [format_piece target, format_piece sp]) ∧
        (lookupA game.board hexd = none →
          ∀ n r, first_occupied_neighbor game.board hexd = some (n, r) →
            hexd.is_adj n = true ∧ lookupA game.board n = some r ∧
            ∃ tok, get_turn_string_toks t game
              = [format_piece target, tok]) := by
  constructor
  · rcases Ht with rfl | ⟨target, hexd, hcase, hokt, hnbr⟩
    · simp [parse_move_toks, get_turn_string_toks]
    · have hprt := parse_format_piece target hokt
      cases hocc : lookupA game.board hexd with
      | some sp =>
        have hoksp := Hok hexd sp hocc
        have hloc := parse_location_plain game.piece_stacks hoksp
          (parse_format_piece sp hoksp) (find_value_eq Hnodup Huniq hocc)
        rcases hcase with ⟨rfl, hany⟩ | ⟨rfl, hany⟩ <;>
          · simp only [get_turn_string_toks, hocc]
            rw [parse_move_two game.piece_stacks hprt hloc]
            first
              | rw [if_pos hany]
              | rw [if_neg (by simp [hany])]
      | none =>
        rcases hnbr hocc with ⟨hbe, rfl⟩ | ⟨n, r, hfnr⟩
        · rcases hcase with ⟨rfl, hany⟩ | ⟨rfl, hany⟩
          · have htoks : get_turn_string_toks (Turn.Place target ORIGIN) game
                = [format_piece target] := by
              simp only [get_turn_string_toks, hbe]
              rfl
            rw [htoks, parse_move_one game.piece_stacks hprt]
          · rw [hbe] at hany
            simp at hany
        · obtain ⟨hmem, hlookn⟩ := first_occupied_neighbor_some hfnr
          obtain ⟨tok, htok, hptok⟩ := location_roundtrip game.piece_stacks
            Hnodup Huniq (Hok n r hlookn) hmem hlookn
          rcases hcase with ⟨rfl, hany⟩ | ⟨rfl, hany⟩ <;>
            · simp only [get_turn_string_toks, hocc, hfnr, htok]
              rw [parse_move_two game.piece_stacks hprt hptok]
              first
                | rw [if_pos hany]
                | rw [if_neg (by simp [hany])]
  · intro target hexd ht
    constructor
    · intro sp hsp
      rcases ht with rfl | rfl <;> simp only [get_turn_string_toks, hsp]
    · intro hno n r hfnr
      obtain ⟨hmem, hlookn⟩ := first_occupied_neighbor_some hfnr
      obtain ⟨tok, htok⟩ := location_token_isSome r hmem
      refine ⟨is_adj_of_mem_ring hmem, hlookn, tok, ?_⟩
      rcases ht with rfl | rfl <;>
        simp only [get_turn_string_toks, hno, hfnr, htok]

/-- Witness for C5: moving the White queen of `rollout_state` from the
origin to (1,0,-1) round-trips through the move notation. -/
theorem turn_string_roundtrip_witness :
    parse_move_toks
        (get_turn_string_toks
          (Turn.Move (Piece.new .Queen .White) ⟨1, 0, -1⟩) rollout_state)
        rollout_state.board rollout_state.piece_stacks
      = some (Turn.Move (Piece.new .Queen .White) ⟨1, 0, -1⟩) :=
  (turn_string_roundtrip rollout_state _
    (by decide)
    (by
      intro h₁ h₂ p h1 h2
      have m1 := lookup_mem h1
      have m2 := lookup_mem h2
      simp only [rollout_state, List.mem_cons, List.not_mem_nil, or_false,
        Prod.mk.injEq] at m1 m2
      rcases m1 with ⟨rfl, rfl⟩ | ⟨rfl, rfl⟩ <;>
        rcases m2 with ⟨rfl, h⟩ | ⟨rfl, h⟩ <;>
          first
            | rfl
            | exact absurd h (by decide))
    (by
      intro hx p hl
      have m := lookup_mem hl
      simp only [rollout_state, List.mem_cons, List.not_mem_nil, or_false,
        Prod.mk.injEq] at m
      rcases m with ⟨-, rfl⟩ | ⟨-, rfl⟩ <;> (unfold piece_ok; decide))
    (Or.inr ⟨Piece.new .Queen .White, ⟨1, 0, -1⟩,
      Or.inr ⟨rfl, by decide⟩, by unfold piece_ok; decide,
      fun _ => Or.inr ⟨⟨1, -1, 0⟩, Piece.new .Ant .Black, by decide⟩⟩)).1

/-- Witness for C10: after one iteration on the two-state host, the root
carries child `1`, and that child has been visited. -/
theorem mcts_children_always_visited_witness :
    (∃ nd, demo_arena[0]? = some nd ∧ 1 ∈ nd.children) ∧
    (∀ cd, demo_arena[1]? = some cd →
      1 ≤ cd.n_visits ∧ (cd.n_visits : ℚ) ≠ 0) := by
  obtain ⟨nd, hnd, hch⟩ : ∃ nd, demo_arena[0]? = some nd ∧ nd.children = [1] :=
    ⟨_, rfl, rfl⟩
  have hmem1 : 1 ∈ nd.children := by
    rw [hch]; exact List.mem_cons_self 1 []
  refine ⟨⟨nd, hnd, hmem1⟩, fun cd hcd => ?_⟩
  have h := mcts_children_always_visited boolHost zeroUcb true 0 1 false nd
    (List.getElem?_mem hnd) 1 hmem1 cd hcd
  exact ⟨h.1, h.2.1⟩

end Roach
